import Mathlib

/-!
Verification of the incremental author-disambiguation engine.

The Lean definitions below are a shallow embedding of the Python sources:

* `acceptance_package/1_核心代码模块/database.py`   — `AuthorDatabase`
* `acceptance_package/1_核心代码模块/author_merger.py` — `AuthorMerger`
* `acceptance_package/1_核心代码模块/similarity_scorer.py` — `SimilarityScorer.score_fellegi_sunter`
* `disambiguation_engine/decision_types.py`      — `Decision`, `DecisionResult`
* `disambiguation_engine/decision_trace.py`      — `DecisionTraceLogger`

Python floats are modelled as rationals (`ℚ`), Python dicts as insertion-ordered
association lists, Python sets as lists (one fixed iteration order).  `math.log`
is abstracted as an explicit function parameter where it occurs, because every
property proved here is independent of the numerics of the logarithm.
-/

namespace IAD

set_option maxRecDepth 8000

/- Batteries marks the arithmetic on `Rat` `@[irreducible]`, which blocks
`decide` on concrete rational computations; the kernel itself reduces them
fine.  Restore default reducibility for this file. -/
attribute [local semireducible] Rat.add Rat.mul Rat.sub Rat.inv

/-! ## Byte and hex utilities -/

/-- Hex digit character for a value `< 16` (lowercase, as `hexdigest()` emits). -/
def hexDigit (n : Nat) : Char :=
  if n < 10 then Char.ofNat (48 + n) else Char.ofNat (87 + n)

/-- Two lowercase hex characters of one byte. -/
def hexByte (b : Nat) : List Char :=
  [hexDigit (b / 16 % 16), hexDigit (b % 16)]

/-- Lowercase hex string of a byte list, as Python's `hashlib` `hexdigest()`. -/
def hexOfBytes (bs : List Nat) : String :=
  String.mk (bs.flatMap hexByte)

/-- UTF-8 encoding of one character (the encoding `str.encode('utf-8')` uses). -/
def utf8Char (c : Char) : List Nat :=
  let n := c.toNat
  if n < 0x80 then [n]
  else if n < 0x800 then [0xC0 + n / 64, 0x80 + n % 64]
  else if n < 0x10000 then [0xE0 + n / 4096, 0x80 + n / 64 % 64, 0x80 + n % 64]
  else [0xF0 + n / 262144, 0x80 + n / 4096 % 64, 0x80 + n / 64 % 64, 0x80 + n % 64]

/-- UTF-8 bytes of a string, as Python's `text.encode('utf-8')`. -/
def utf8Encode (s : String) : List Nat :=
  s.data.flatMap utf8Char

/-! ## SHA-256 (FIPS 180-4), over byte lists

A faithful executable model of the `hashlib.sha256` digests used by
`decision_types.py` and `decision_trace.py`.  All words are naturals taken
modulo `2^32`. -/

/-- Addition modulo `2^32`. -/
def add32 (a b : Nat) : Nat := (a + b) % 4294967296

/-- Right rotation of a 32-bit word. -/
def rotr32 (k n : Nat) : Nat :=
  ((n >>> k) ||| (n <<< (32 - k))) % 4294967296

/-- The 64 SHA-256 round constants (FIPS 180-4, written in decimal). -/
def shaK : List Nat :=
  [1116352408, 1899447441, 3049323471, 3921009573, 961987163,
   1508970993, 2453635748, 2870763221, 3624381080, 310598401,
   607225278, 1426881987, 1925078388, 2162078206, 2614888103,
   3248222580, 3835390401, 4022224774, 264347078, 604807628,
   770255983, 1249150122, 1555081692, 1996064986, 2554220882,
   2821834349, 2952996808, 3210313671, 3336571891, 3584528711,
   113926993, 338241895, 666307205, 773529912, 1294757372,
   1396182291, 1695183700, 1986661051, 2177026350, 2456956037,
   2730485921, 2820302411, 3259730800, 3345764771, 3516065817,
   3600352804, 4094571909, 275423344, 430227734, 506948616,
   659060556, 883997877, 958139571, 1322822218, 1537002063,
   1747873779, 1955562222, 2024104815, 2227730452, 2361852424,
   2428436474, 2756734187, 3204031479, 3329325298]

/-- Initial SHA-256 state (FIPS 180-4, written in decimal). -/
def shaH0 : List Nat :=
  [1779033703, 3144134277, 1013904242, 2773480762,
   1359893119, 2600822924, 528734635, 1541459225]

/-- Message padding: `0x80`, zeros, then the 64-bit big-endian bit length. -/
def shaPad (msg : List Nat) : List Nat :=
  let len := msg.length
  let zeros := (119 - len % 64) % 64
  let bitLen := len * 8
  msg ++ [0x80] ++ List.replicate zeros 0 ++
    [bitLen / 2^56 % 256, bitLen / 2^48 % 256, bitLen / 2^40 % 256,
     bitLen / 2^32 % 256, bitLen / 2^24 % 256, bitLen / 2^16 % 256,
     bitLen / 2^8 % 256, bitLen % 256]

/-- Split a list into 64-byte blocks; the fuel argument (any bound on the
block count, structurally recursive so that the kernel can evaluate it) is
instantiated with the list length in `shaBlocks`. -/
def shaBlocksGo : Nat → List Nat → List (List Nat)
  | _, [] => []
  | 0, _ :: _ => []
  | fuel + 1, b :: bs => (b :: bs).take 64 :: shaBlocksGo fuel ((b :: bs).drop 64)

/-- Split a padded message into 64-byte blocks. -/
def shaBlocks (bs : List Nat) : List (List Nat) :=
  shaBlocksGo bs.length bs

/-- Big-endian 32-bit words of one 64-byte block. -/
def shaWords : List Nat → List Nat
  | b0 :: b1 :: b2 :: b3 :: rest =>
      (b0 * 16777216 + b1 * 65536 + b2 * 256 + b3) :: shaWords rest
  | _ => []

/-- Extend the 16 message words to 64: the reversed schedule is grown one word
at a time from positions 2, 7, 15 and 16 back. -/
def shaExtend : Nat → List Nat → List Nat
  | 0, rws => rws
  | k + 1, rws =>
      let w2 := rws.getD 1 0
      let w7 := rws.getD 6 0
      let w15 := rws.getD 14 0
      let w16 := rws.getD 15 0
      let s0 := (Nat.xor (Nat.xor (rotr32 7 w15) (rotr32 18 w15)) (w15 >>> 3))
      let s1 := (Nat.xor (Nat.xor (rotr32 17 w2) (rotr32 19 w2)) (w2 >>> 10))
      shaExtend k (add32 (add32 w16 s0) (add32 w7 s1) :: rws)

/-- One round of the SHA-256 compression function. -/
def shaRound (st : List Nat) (kw : Nat × Nat) : List Nat :=
  match st with
  | [a, b, c, d, e, f, g, h] =>
      let s1 := Nat.xor (Nat.xor (rotr32 6 e) (rotr32 11 e)) (rotr32 25 e)
      let ch := Nat.xor (Nat.land e f) (Nat.land (4294967295 - e) g)
      let t1 := add32 (add32 h s1) (add32 ch (add32 kw.1 kw.2))
      let s0 := Nat.xor (Nat.xor (rotr32 2 a) (rotr32 13 a)) (rotr32 22 a)
      let mj := Nat.xor (Nat.xor (Nat.land a b) (Nat.land a c)) (Nat.land b c)
      let t2 := add32 s0 mj
      [add32 t1 t2, a, b, c, add32 d t1, e, f, g]
  | st => st

/-- Process one 64-byte block. -/
def shaBlockStep (st : List Nat) (block : List Nat) : List Nat :=
  let ws16 := shaWords block
  let ws := (shaExtend 48 ws16.reverse).reverse
  let st' := (shaK.zip ws).foldl shaRound st
  (st.zip st').map fun p => add32 p.1 p.2

/-- SHA-256 digest (32 bytes) of a byte list. -/
def sha256 (msg : List Nat) : List Nat :=
  let final := (shaBlocks (shaPad msg)).foldl shaBlockStep shaH0
  final.flatMap fun w => [w / 16777216 % 256, w / 65536 % 256, w / 256 % 256, w % 256]

/-- `hashlib.sha256(text.encode('utf-8')).hexdigest()`. -/
def sha256HexOfString (s : String) : String :=
  hexOfBytes (sha256 (utf8Encode s))

example : sha256HexOfString "abc" =
    "ba7816bf8f01cfea414140de5dae2223b00361a396177a9cb410ff61f20015ad" := by
  decide

/-! ## Python string helpers

Modelled character-for-character after the CPython behaviour the sources rely
on.  Case mapping uses `Char.toLower`/`Char.toUpper`, which agree with Python
on the ASCII names and identifiers this program feeds them. -/

/-- Whitespace in the sense of `str.split()` / `str.strip()`. -/
def pyIsSpace (c : Char) : Bool :=
  c == ' ' || c == '\t' || c == '\n' || c == '\x0d' || c == '\x0b' || c == '\x0c'

/-- `str.split()` on a character list: maximal runs of non-whitespace. -/
def pySplitChars : List Char → List Char → List (List Char)
  | [], [] => []
  | [], acc => [acc.reverse]
  | c :: cs, acc =>
      if pyIsSpace c then
        match acc with
        | [] => pySplitChars cs []
        | _ => acc.reverse :: pySplitChars cs []
      else pySplitChars cs (c :: acc)

/-- Python `s.split()` (no argument): tokens separated by whitespace runs. -/
def pySplit (s : String) : List String :=
  (pySplitChars s.data []).map String.mk

/-- Python `s.strip()`. -/
def pyStrip (s : String) : String :=
  String.mk (((s.data.dropWhile pyIsSpace).reverse.dropWhile pyIsSpace).reverse)

/-- Python `s.lower()` (ASCII-faithful). -/
def pyLower (s : String) : String := String.mk (s.data.map Char.toLower)

/-- Python `s.upper()` (ASCII-faithful). -/
def pyUpper (s : String) : String := String.mk (s.data.map Char.toUpper)

/-- Python `s.replace(' ', '_')`. -/
def pyUnderscore (s : String) : String :=
  String.mk (s.data.map fun c => if c == ' ' then '_' else c)

/-- Python `s[:n]`. -/
def pyTake (n : Nat) (s : String) : String := String.mk (s.data.take n)

/-- Lexicographic `≤` on character lists by code point — the order Python uses
to compare strings (and the order of Lean's `String` instances, written out so
that it evaluates by kernel reduction). -/
def strLeChars : List Char → List Char → Bool
  | [], _ => true
  | _ :: _, [] => false
  | a :: as, b :: bs =>
      if a.toNat < b.toNat then true
      else if b.toNat < a.toNat then false
      else strLeChars as bs

/-- Python `a <= b` on strings. -/
def pyStrLe (a b : String) : Bool := strLeChars a.data b.data

/-- Python `a < b` on strings. -/
def pyStrLt (a b : String) : Bool := pyStrLe a b && a != b

/-! ## Data model: `models/author.py` and the mention dictionaries

`Author` carries the dataclass fields the decision pipeline reads.  Python
sets are modelled as lists in one fixed iteration order.  Optional/absent
dictionary entries and empty strings are both falsy in the sources
(`if orcid:`), so both are modelled as `none`. -/

structure Author where
  author_id : String
  canonical_name : String
  orcid : Option String := none
  alternate_names : List String := []
  coauthor_ids : List String := []
  journals : List String := []
  affiliations : List String := []
  publication_count : Nat := 0
  collaboration_count : Nat := 0
  deriving Repr, DecidableEq

/-- `Author.__post_init__`: a non-empty canonical name joins `alternate_names`. -/
def Author.postInit (a : Author) : Author :=
  if a.canonical_name ≠ "" ∧ a.canonical_name ∉ a.alternate_names then
    { a with alternate_names := a.alternate_names ++ [a.canonical_name] }
  else a

/-- The `affiliation` entry of an input dictionary: a string, a list, or absent
(`isinstance` dispatch in `add_author` / `get_candidates`). -/
inductive AffField where
  | str (s : String)
  | list (l : List String)
  | absent
  deriving Repr, DecidableEq

/-- An author mention as consumed by the engine (`mention` dictionaries).
`coauthors` / `journals` distinguish an absent key (`none`) from a present
list, because `_redact_mention` tests key membership (`'coauthors' in
mention_data`), not truthiness. -/
structure Mention where
  name : Option String := none
  orcid : Option String := none
  coauthors : Option (List String) := none
  journals : Option (List String) := none
  affiliation : AffField := .absent
  deriving Repr, DecidableEq

/-- Input dictionary for `AuthorDatabase.add_author`. -/
structure AuthorData where
  name : Option String := none
  full_name : Option String := none
  orcid : Option String := none
  affiliation : AffField := .absent
  coauthors : List String := []
  journals : List String := []
  deriving Repr, DecidableEq

/-! ## `AuthorDatabase` (acceptance_package/1_核心代码模块/database.py)

The six storage structures of `__init__`.  `defaultdict(list)` indexes are
association lists whose entries are appended to; `orcid_index` / `id_index`
are plain dict overwrites. -/

structure AuthorDatabase where
  authors : List Author := []
  surname_index : List (String × List Author) := []
  surname_initial_index : List (String × List Author) := []
  orcid_index : List (String × Author) := []
  id_index : List (String × Author) := []
  blocking_key_index : List (String × List Author) := []
  deriving Repr, DecidableEq

/-- `defaultdict(list)` append: `idx[key].append(a)`. -/
def idxAppend (idx : List (String × List Author)) (key : String) (a : Author) :
    List (String × List Author) :=
  match idx with
  | [] => [(key, [a])]
  | (k, l) :: rest =>
      if k == key then (k, l ++ [a]) :: rest else (k, l) :: idxAppend rest key a

/-- Plain dict write: `idx[key] = a` (overwrite, keep first-insertion position). -/
def idxSet (idx : List (String × Author)) (key : String) (a : Author) :
    List (String × Author) :=
  match idx with
  | [] => [(key, a)]
  | (k, b) :: rest =>
      if k == key then (k, a) :: rest else (k, b) :: idxSet rest key a

/-- Dict removal: `del idx[key]`. -/
def idxDel (idx : List (String × Author)) (key : String) : List (String × Author) :=
  match idx with
  | [] => []
  | (k, b) :: rest => if k == key then rest else (k, b) :: idxDel rest key

/-- Dict replace in a `defaultdict(list)`: `idx[key] = l` (creates the key). -/
def idxReplace (idx : List (String × List Author)) (key : String) (l : List Author) :
    List (String × List Author) :=
  match idx with
  | [] => [(key, l)]
  | (k, l0) :: rest =>
      if k == key then (k, l) :: rest else (k, l0) :: idxReplace rest key l

/-- `idx.get(key, [])` on a `defaultdict(list)`-shaped index. -/
def idxGet (idx : List (String × List Author)) (key : String) : List Author :=
  match idx with
  | [] => []
  | (k, l) :: rest => if k == key then l else idxGet rest key

/-- `AuthorDatabase._extract_surname`: last whitespace token of the full name. -/
def extractSurname (full_name : String) : String :=
  match (pySplit (pyStrip full_name)).reverse with
  | [] => ""
  | last :: _ => last

/-- `AuthorDatabase._extract_surname_initial`: `"smith_j"`-style key
(lowercased); a single-token name lowers to itself. -/
def extractSurnameInitial (full_name : String) : String :=
  match pySplit (pyStrip full_name) with
  | [] => ""
  | [single] => pyLower single
  | first :: rest =>
      let surname := pyLower ((first :: rest).reverse.headD "")
      match first.data with
      | [] => surname
      | c :: _ => surname ++ "_" ++ String.mk [c.toLower]

/-- `AuthorDatabase._generate_blocking_keys`: ORCID, surname, surname+initial,
up to two affiliation prefixes, up to three journal prefixes. -/
def generateBlockingKeys (a : Author) : List String :=
  (match a.orcid with
   | some o => ["orcid:" ++ o]
   | none => []) ++
  (let surname := extractSurname a.canonical_name
   if surname ≠ "" then ["surname:" ++ pyLower surname] else []) ++
  (let si := extractSurnameInitial a.canonical_name
   if si ≠ "" then ["surname_init:" ++ si] else []) ++
  ((a.affiliations.take 2).filterMap fun aff =>
    if aff ≠ "" then some ("affil:" ++ pyTake 30 (pyUnderscore (pyLower aff))) else none) ++
  ((a.journals.take 3).filterMap fun j =>
    if j ≠ "" then some ("journal:" ++ pyTake 30 (pyUnderscore (pyLower j))) else none)

/-- `AuthorDatabase.add_author`.  The `uuid`-generated identifier is impure in
the source (`f"au_{uuid.uuid4().hex[:8]}"`), so the fresh id is taken as the
explicit argument `genId`. -/
def addAuthor (db : AuthorDatabase) (genId : String) (data : AuthorData) :
    AuthorDatabase :=
  let author0 : Author :=
    Author.postInit
      { author_id := genId
        canonical_name := (data.name.getD (data.full_name.getD ""))
        orcid := data.orcid }
  let author1 :=
    match data.affiliation with
    | .list l => { author0 with affiliations := l.dedup }
    | .str s => { author0 with affiliations := [s] }
    | .absent => author0
  let author2 :=
    if data.coauthors ≠ [] then
      { author1 with coauthor_ids := data.coauthors.dedup
                     collaboration_count := data.coauthors.dedup.length }
    else author1
  let author :=
    if data.journals ≠ [] then { author2 with journals := data.journals.dedup }
    else author2
  let db := { db with authors := db.authors ++ [author] }
  let surname := extractSurname author.canonical_name
  let db :=
    if surname ≠ "" then
      { db with surname_index := idxAppend db.surname_index (pyLower surname) author }
    else db
  let siKey := extractSurnameInitial author.canonical_name
  let db :=
    if siKey ≠ "" then
      { db with surname_initial_index := idxAppend db.surname_initial_index siKey author }
    else db
  let db :=
    match author.orcid with
    | some o => { db with orcid_index := idxSet db.orcid_index o author }
    | none => db
  let db := { db with id_index := idxSet db.id_index author.author_id author }
  let newBk :=
    (generateBlockingKeys author).foldl (fun idx k => idxAppend idx k author)
      db.blocking_key_index
  { db with blocking_key_index := newBk }

/-- Insertion into the deduplicating `candidates_dict` of `get_candidates`
(`candidates_dict[author.author_id] = author`; re-assigning an id that is
already present keeps its position and stores the same author object). -/
def dedupInsert (acc : List Author) (a : Author) : List Author :=
  if acc.any (fun b => b.author_id == a.author_id) then acc else acc ++ [a]

/-- Stable ascending insertion by `author_id`, modelling the stable
`candidates_list.sort(key=lambda a: a.author_id)`. -/
def insertById (a : Author) : List Author → List Author
  | [] => [a]
  | b :: l =>
      if pyStrLe a.author_id b.author_id then a :: b :: l else b :: insertById a l

/-- `candidates_list.sort(key=lambda a: a.author_id)` (stable). -/
def sortById (l : List Author) : List Author := l.foldr insertById []

/-- The deduplicated candidate union `candidates_dict` of
`AuthorDatabase.get_candidates` after the four blocking strategies, before the
final sort and truncation. -/
def candidateUnion (db : AuthorDatabase) (mention : Mention) : List Author :=
  let acc : List Author := []
  -- strategy 1: exact ORCID key
  let acc :=
    match mention.orcid with
    | some o => (idxGet db.blocking_key_index ("orcid:" ++ o)).foldl dedupInsert acc
    | none => acc
  -- strategy 2: surname key
  let acc :=
    match mention.name with
    | some nm =>
        let surname := extractSurname nm
        if surname ≠ "" then
          (idxGet db.blocking_key_index ("surname:" ++ pyLower surname)).foldl dedupInsert acc
        else acc
    | none => acc
  -- strategy 3: surname+initial key
  let acc :=
    match mention.name with
    | some nm =>
        let si := extractSurnameInitial nm
        if si ≠ "" then
          (idxGet db.blocking_key_index ("surname_init:" ++ si)).foldl dedupInsert acc
        else acc
    | none => acc
  -- strategy 4: first affiliation key, at most 20 authors from it
  let affs :=
    match mention.affiliation with
    | .str s => [s]
    | .list l => l
    | .absent => []
  (affs.take 1).foldl
    (fun acc aff =>
      if aff ≠ "" then
        ((idxGet db.blocking_key_index
            ("affil:" ++ pyTake 30 (pyUnderscore (pyLower aff)))).take 20).foldl
          dedupInsert acc
      else acc)
    acc

/-- `AuthorDatabase.get_candidates`: multi-key blocking retrieval, deduplicated
by `author_id`, sorted by `author_id`, truncated to `max_candidates`. -/
def getCandidates (db : AuthorDatabase) (mention : Mention)
    (max_candidates : Nat := 100) : List Author :=
  let sorted := sortById (candidateUnion db mention)
  if max_candidates < sorted.length then sorted.take max_candidates else sorted

/-- The one runtime error class this embedding needs: `remove_author` evaluates
`author.name` although the `Author` dataclass defines no field `name` (its name
field is `canonical_name`), which raises `AttributeError` in Python. -/
inductive PyErr where
  | attributeError
  deriving Repr, DecidableEq

/-- `AuthorDatabase.remove_author`, faithfully: an unknown id returns `False`;
for a stored author the source then evaluates `self._extract_surname(author.name)`
— but `Author` has no attribute `name`, so the call raises `AttributeError`
before any index is touched. -/
def removeAuthor (db : AuthorDatabase) (author_id : String) :
    Except PyErr (AuthorDatabase × Bool) :=
  match db.id_index.lookup author_id with
  | none => .ok (db, false)
  | some _ => .error .attributeError

/-- `remove_author` with the evident one-token repair (`author.name` read as
`author.canonical_name`), to exhibit what the method would do past the crash:
it filters `authors`, the surname index and the two plain dict indexes, but
never touches `surname_initial_index` or `blocking_key_index`. -/
def removeAuthorPatched (db : AuthorDatabase) (author_id : String) :
    AuthorDatabase × Bool :=
  match db.id_index.lookup author_id with
  | none => (db, false)
  | some author =>
      let db := { db with authors := db.authors.filter (fun a => a.author_id ≠ author_id) }
      let surname := extractSurname author.canonical_name
      let db :=
        if surname ≠ "" then
          let filtered :=
            (idxGet db.surname_index (pyLower surname)).filter
              (fun a => a.author_id ≠ author_id)
          { db with surname_index := idxReplace db.surname_index (pyLower surname) filtered }
        else db
      let db :=
        match author.orcid with
        | some o =>
            if (db.orcid_index.lookup o).isSome then
              { db with orcid_index := idxDel db.orcid_index o }
            else db
        | none => db
      ({ db with id_index := idxDel db.id_index author_id }, true)

/-! ## Python number formatting

Scores are rationals.  `round(x, n)` is modelled as exact decimal rounding
half-to-even (the idealisation of CPython's float `round`), and `repr(float)` /
`json.dumps` float rendering as the shortest exact decimal, which agrees with
CPython on every ≤6-decimal-digit value this program serialises. -/

/-- Round a rational to the nearest integer, ties to even (Python `round`). -/
def roundHalfEven (q : ℚ) : ℤ :=
  let f := ⌊q⌋
  let r := q - f
  if r < 1/2 then f
  else if 1/2 < r then f + 1
  else if f % 2 = 0 then f else f + 1

/-- Python `round(x, 6)`. -/
def round6 (q : ℚ) : ℚ := (roundHalfEven (q * 1000000) : ℚ) / 1000000

/-- Fractional decimal digits of `q ∈ [0,1)`, most significant first, at most
`n` of them, trailing zeros kept (stripped by the caller). -/
def fracDigits : Nat → ℚ → List Nat
  | 0, _ => []
  | n + 1, q =>
      let d := ⌊q * 10⌋.toNat
      d :: fracDigits n (q * 10 - d)

/-- `repr(float)` / JSON float rendering for the exact decimals produced by
`round(_, 6)`: integer part, a dot, then the fractional digits without
trailing zeros (`1.0` for integral values, with a leading minus if negative). -/
def pyFloatRepr (q : ℚ) : String :=
  let sign := if q < 0 then "-" else ""
  let a := |q|
  let ip := ⌊a⌋.toNat
  let ds := (fracDigits 30 (a - ip)).reverse.dropWhile (· == 0) |>.reverse
  let fracStr := if ds.isEmpty then "0" else String.mk (ds.map fun d => hexDigit (d % 10))
  sign ++ toString ip ++ "." ++ fracStr

/-- Python `f"{x:.3f}"`: exactly three decimals, rounding ties to even. -/
def formatFixed3 (q : ℚ) : String :=
  let n := roundHalfEven (q * 1000)
  let sign := if n < 0 then "-" else ""
  let m := n.natAbs
  let frac := m % 1000
  let pad := if frac < 10 then "00" else if frac < 100 then "0" else ""
  sign ++ toString (m / 1000) ++ "." ++ pad ++ toString frac

/-! ## JSON serialisation (`json.dumps` with default separators)

Only the shapes this program serialises are rendered; `ensure_ascii=False`
keeps non-ASCII characters raw.  A literal `{` / `}` is written `\x7b` /
`\x7d`. -/

/-- JSON string escaping as `json.dumps` performs it. -/
def jsonEscapeChar (c : Char) : List Char :=
  if c == '"' then ['\\', '"']
  else if c == '\\' then ['\\', '\\']
  else if c == '\n' then ['\\', 'n']
  else if c == '\t' then ['\\', 't']
  else if c == '\x0d' then ['\\', 'r']
  else if c == '\x08' then ['\\', 'b']
  else if c == '\x0c' then ['\\', 'f']
  else if c.toNat < 32 then
    ['\\', 'u', '0', '0', hexDigit (c.toNat / 16), hexDigit (c.toNat % 16)]
  else [c]

/-- A JSON string literal. -/
def jStr (s : String) : String :=
  "\"" ++ String.mk (s.data.flatMap jsonEscapeChar) ++ "\""

/-- A JSON float. -/
def jNum (q : ℚ) : String := pyFloatRepr q

/-- A JSON string-or-null (`Optional[str]`). -/
def jOptStr : Option String → String
  | some s => jStr s
  | none => "null"

/-- Comma-join pre-rendered items (`json.dumps` default item separator). -/
def jJoin (items : List String) : String :=
  match items with
  | [] => ""
  | x :: rest => rest.foldl (fun acc y => acc ++ ", " ++ y) x

/-- A JSON object from pre-rendered key/value pairs, in the given key order. -/
def jObj (fields : List (String × String)) : String :=
  "\x7b" ++ jJoin (fields.map fun kv => jStr kv.1 ++ ": " ++ kv.2) ++ "\x7d"

/-- A JSON array from pre-rendered items. -/
def jArr (items : List String) : String := "[" ++ jJoin items ++ "]"

/-- Stable ascending insertion of string-keyed pairs (Python `sorted(d.items())`
/ `sort_keys=True`; keys are unique in every dict serialised here). -/
def insertByKey {α : Type} (p : String × α) :
    List (String × α) → List (String × α)
  | [] => [p]
  | q :: l => if pyStrLe p.1 q.1 then p :: q :: l else q :: insertByKey p l

/-- Sort string-keyed pairs by key. -/
def sortByKey {α : Type} (l : List (String × α)) : List (String × α) :=
  l.foldr insertByKey []

/-! ## `Decision` and `DecisionResult` (`disambiguation_engine/decision_types.py`) -/

/-- The three-way decision enum. -/
inductive Decision where
  | merge
  | new
  | unknown
  deriving Repr, DecidableEq

/-- `Decision.value`. -/
def Decision.value : Decision → String
  | .merge => "merge"
  | .new => "new"
  | .unknown => "unknown"

/-- One value of the raw comparison dictionary (bins are strings, raw
similarities floats, the ORCID flag a boolean). -/
inductive CompVal where
  | s (v : String)
  | q (v : ℚ)
  | b (v : Bool)
  deriving Repr, DecidableEq

/-- The comparison dictionary of one (mention, candidate) pair. -/
abbrev CompVec := List (String × CompVal)

/-- One entry of the `topk` list built by `make_decision`. -/
structure TopkEntry where
  author_id : String
  score : ℚ
  components : List (String × ℚ)
  deriving Repr, DecidableEq

/-- The `DecisionResult` dataclass fields. -/
structure DecisionResult where
  decision : Decision
  score_total : ℚ
  score_components : List (String × ℚ)
  comparisons : CompVec
  thresholds : List (String × ℚ)
  mode : String
  best_author_id : Option String := none
  topk : List TopkEntry := []
  reason : String := ""
  deterministic_hash : String := ""
  run_id : Option String := none
  candidate_count : Nat := 0
  blocking_keys : List String := []
  deriving Repr, DecidableEq

/-- The canonical JSON string hashed by
`DecisionResult._compute_deterministic_hash`: the `hash_data` dictionary
serialised with `json.dumps(..., sort_keys=True, ensure_ascii=False)` — keys
in sorted order, every float rounded to six decimals. -/
def canonicalHashJson (r : DecisionResult) : String :=
  jObj
    [("best_author_id", jOptStr r.best_author_id),
     ("decision", jStr r.decision.value),
     ("mode", jStr r.mode),
     ("score_components",
       jObj ((sortByKey r.score_components).map fun kv => (kv.1, jNum (round6 kv.2)))),
     ("score_total", jNum (round6 r.score_total)),
     ("thresholds",
       jObj ((sortByKey r.thresholds).map fun kv => (kv.1, jNum (round6 kv.2))))]

/-- `DecisionResult._compute_deterministic_hash`: first 12 hex characters of
SHA-256 over the canonical JSON. -/
def computeDeterministicHash (r : DecisionResult) : String :=
  (sha256HexOfString (canonicalHashJson r)).take 12

/-- `f"{value}"` of an `Optional[str]` (`None` prints as `"None"`). -/
def pyShowOptStr : Option String → String
  | some s => s
  | none => "None"

/-- `self.thresholds.get(key, 'N/A')` rendered inside an f-string. -/
def thresholdStr (r : DecisionResult) (key : String) : String :=
  match r.thresholds.lookup key with
  | some v => pyFloatRepr v
  | none => "N/A"

/-- `DecisionResult._generate_reason`. -/
def generateReason (r : DecisionResult) : String :=
  match r.decision with
  | .merge =>
      "Score " ++ formatFixed3 r.score_total ++ " >= accept_threshold " ++
        thresholdStr r "accept" ++ ", merged with author " ++
        pyShowOptStr r.best_author_id
  | .new =>
      "Score " ++ formatFixed3 r.score_total ++ " <= reject_threshold " ++
        thresholdStr r "reject" ++ ", created new author"
  | .unknown =>
      "Score " ++ formatFixed3 r.score_total ++ " in uncertain range (" ++
        thresholdStr r "reject" ++ " < score < " ++ thresholdStr r "accept" ++
        "), requires manual review"

/-- First half of `DecisionResult.__post_init__`: fill in the deterministic
hash when it was not supplied. -/
def postInitHash (r : DecisionResult) : DecisionResult :=
  if r.deterministic_hash = "" then
    { r with deterministic_hash := computeDeterministicHash r }
  else r

/-- Second half of `DecisionResult.__post_init__`: fill in the reason when it
was not supplied. -/
def postInitReason (r : DecisionResult) : DecisionResult :=
  if r.reason = "" then { r with reason := generateReason r } else r

/-- `DecisionResult.__post_init__`: the two fill-ins, in source order. -/
def DecisionResult.postInit (r : DecisionResult) : DecisionResult :=
  postInitReason (postInitHash r)

/-! ## Fellegi–Sunter scorer
(`SimilarityScorer.score_fellegi_sunter`, acceptance_package similarity_scorer.py)

`math.log` is abstracted as the parameter `lg`: every property claimed of this
function concerns which features contribute, the ε-floor, and the additivity
of the total — all independent of the numerics of the logarithm. -/

/-- The overflow floor `1e-10` substituted for a zero `m` or `u`. -/
def fsEpsilon : ℚ := 1 / 10000000000

/-- The m/u parameter table: feature → bin → `{m, u}`. -/
abbrev MuTable := List (String × List (String × (ℚ × ℚ)))

/-- The per-feature log-likelihood term, with the source's exact case split:
`u == 0` yields `log(m/1e-10)` when `m > 0` and `0.0` otherwise; `m == 0`
yields `log(1e-10/u)`; otherwise `log(m/u)`. -/
def llrOf (lg : ℚ → ℚ) (m u : ℚ) : ℚ :=
  if u = 0 then (if 0 < m then lg (m / fsEpsilon) else 0)
  else if m = 0 then lg (fsEpsilon / u)
  else lg (m / u)

/-- The fixed `feature_mappings` list, extended with `chinese_name` when the
plug-in is enabled and the comparison vector carries its bin. -/
def featureMappings (enableChinese : Bool) (cmp : CompVec) : List (String × String) :=
  [("name_bin", "name"), ("orcid_bin", "orcid"), ("coauthor_bin", "coauthor"),
   ("journal_bin", "journal"), ("affiliation_bin", "affiliation")] ++
  (if enableChinese ∧ (cmp.lookup "chinese_name_bin").isSome then
    [("chinese_name_bin", "chinese_name")] else [])

/-- `mu_key in mu_table and bin_value in mu_table[mu_key]` followed by the
`['m']` / `['u']` reads; a non-string comparison value is never a dict key. -/
def muLookup (table : MuTable) (feature : String) (v : CompVal) : Option (ℚ × ℚ) :=
  match v with
  | .s b => (table.lookup feature).bind fun bins => bins.lookup b
  | _ => none

/-- `SimilarityScorer.score_fellegi_sunter`: walk the feature mappings, add the
per-feature log-likelihood for every feature whose bin the table knows, skip
the rest silently; returns `(total_score, components_llr)`. -/
def scoreFellegiSunter (lg : ℚ → ℚ) (enableChinese : Bool) (cmp : CompVec)
    (table : MuTable) : ℚ × List (String × ℚ) :=
  (featureMappings enableChinese cmp).foldl
    (fun acc ckmk =>
      match cmp.lookup ckmk.1 with
      | none => acc
      | some v =>
          match muLookup table ckmk.2 v with
          | none => acc
          | some mu =>
              let llr := llrOf lg mu.1 mu.2
              (acc.1 + llr, acc.2 ++ [(ckmk.2, llr)]))
    (0, [])

/-! ## `AuthorMerger` (acceptance_package/1_核心代码模块/author_merger.py)

The engine configuration; `make_decision` is parameterised by the function
`sc`, standing for the composition
`comparisons = scorer.compute_comparisons(mention, author)` followed by
`score_baseline` or `score_fellegi_sunter` according to `mode` — the claims
proved below hold for every scorer. -/

structure AuthorMerger where
  mode : String := "fs"
  accept_threshold : ℚ := 9/10
  reject_threshold : ℚ := 1/5
  run_id : Option String := none
  topk : Nat := 5
  deriving Repr, DecidableEq

/-- `AuthorMerger._extract_blocking_keys` — note the uppercased first initial
(`tokens[0][0].upper()`). -/
def extractBlockingKeysMention (mention : Mention) : List String :=
  (match mention.orcid with
   | some o => ["orcid:" ++ o]
   | none => []) ++
  (match mention.name with
   | some nm =>
       (match pySplit (pyStrip nm) with
        | [] => []
        | t0 :: rest =>
            let surname := pyLower ((t0 :: rest).reverse.headD "")
            ["surname:" ++ surname] ++
            (if 2 ≤ (t0 :: rest).length then
              match t0.data with
              | [] => []
              | c :: _ => ["surname_initial:" ++ surname ++ "_" ++ String.mk [c.toUpper]]
            else []))
   | none => [])

/-- One entry of `scored_candidates`. -/
structure ScoredCand where
  author_id : String
  score : ℚ
  components : List (String × ℚ)
  comparisons : CompVec
  deriving Repr, DecidableEq

/-- Stable descending insertion by score: the model of Python's stable
`scored_candidates.sort(key=lambda x: x["score"], reverse=True)` (equal scores
keep their submission order). -/
def insertByScoreDesc (x : ScoredCand) : List ScoredCand → List ScoredCand
  | [] => [x]
  | y :: l => if y.score ≤ x.score then x :: y :: l else y :: insertByScoreDesc x l

/-- `scored_candidates.sort(key=..., reverse=True)`. -/
def sortByScoreDesc (l : List ScoredCand) : List ScoredCand :=
  l.foldr insertByScoreDesc []

/-- `AuthorMerger._make_new_decision`. -/
def makeNewDecision (cfg : AuthorMerger) (score_total : ℚ)
    (score_components : List (String × ℚ)) (comparisons : CompVec)
    (blocking_keys : List String) : DecisionResult :=
  DecisionResult.postInit
    { decision := .new
      best_author_id := none
      score_total := score_total
      score_components := score_components
      comparisons := comparisons
      thresholds := [("accept", cfg.accept_threshold), ("reject", cfg.reject_threshold)]
      mode := cfg.mode
      topk := []
      run_id := cfg.run_id
      candidate_count := 0
      blocking_keys := blocking_keys }

/-- `AuthorMerger.make_decision`: blocking retrieval, per-candidate scoring,
stable sort, dual-threshold three-way decision, top-k assembly. -/
def makeDecision (cfg : AuthorMerger)
    (sc : Mention → Author → CompVec × ℚ × List (String × ℚ))
    (db : AuthorDatabase) (mention : Mention) : DecisionResult :=
  let candidates := getCandidates db mention 100
  let blocking_keys_used := extractBlockingKeysMention mention
  match candidates with
  | [] => makeNewDecision cfg 0 [] [] blocking_keys_used
  | c :: cs =>
      let scored := (c :: cs).map fun a =>
        let r := sc mention a
        ScoredCand.mk a.author_id r.2.1 r.2.2 r.1
      let sorted := sortByScoreDesc scored
      let best := sorted.headD (ScoredCand.mk "" 0 [] [])
      let decision : Decision :=
        if cfg.accept_threshold ≤ best.score then .merge
        else if best.score ≤ cfg.reject_threshold then .new
        else .unknown
      let topkList := (sorted.take cfg.topk).map fun cand =>
        TopkEntry.mk cand.author_id (round6 cand.score)
          (cand.components.map fun kv => (kv.1, round6 kv.2))
      DecisionResult.postInit
        { decision := decision
          best_author_id := if decision = .merge then some best.author_id else none
          score_total := best.score
          score_components := best.components
          comparisons := best.comparisons
          thresholds := [("accept", cfg.accept_threshold), ("reject", cfg.reject_threshold)]
          mode := cfg.mode
          topk := topkList
          run_id := cfg.run_id
          candidate_count := (c :: cs).length
          blocking_keys := blocking_keys_used }

/-! ## Trace logger (`disambiguation_engine/decision_trace.py`)

Records are modelled as the rendered JSONL line (`json.dumps(...,
ensure_ascii=False)`); writing is modelled as the list of (stream, line)
appends one `append_trace` call performs.  The wall-clock timestamps
(`datetime.utcnow().isoformat()`) are explicit arguments. -/

/-- The logger configuration (`trace_path` / `review_path` / `salt`). -/
structure TraceConfig where
  trace_path : Option String := none
  review_path : Option String := none
  salt : String := "default_salt_change_in_production"
  deriving Repr, DecidableEq

/-- `DecisionTraceLogger._hash_text`: first 16 hex characters of
`sha256(f"{text}||{salt}")`. -/
def hashText (salt text : String) : String :=
  (sha256HexOfString (text ++ "||" ++ salt)).take 16

/-- `DecisionTraceLogger._redact_affiliation` (`_hash_text(aff)[:16]`). -/
def redactAffiliation (salt aff : String) : String := hashText salt aff

/-- `DecisionTraceLogger._redact_text` (`_hash_text(text)[:12]`). -/
def redactText (salt text : String) : String := (hashText salt text).take 12

/-- Is `c` in the Latin letter range after `c.lower()`? -/
def isLatinLetter (c : Char) : Bool :=
  97 ≤ c.toLower.toNat && c.toLower.toNat ≤ 122

/-- Is `c` in the Cyrillic range `а..я` after `c.lower()`? -/
def isCyrillicLetter (c : Char) : Bool :=
  1072 ≤ c.toLower.toNat && c.toLower.toNat ≤ 1103

/-- Is `c` in the CJK unified range `U+4E00..U+9FFF`? -/
def isCjkChar (c : Char) : Bool :=
  0x4E00 ≤ c.toNat && c.toNat ≤ 0x9FFF

/-- `DecisionTraceLogger._detect_script`: dominant script by a 70% majority of
the classified characters. -/
def detectScript (text : String) : String :=
  if text = "" then "empty"
  else
    let latin := (text.data.filter isLatinLetter).length
    let cyr := (text.data.filter isCyrillicLetter).length
    let cjk := (text.data.filter isCjkChar).length
    let total := latin + cyr + cjk
    if total = 0 then "other"
    else if 7 * total < 10 * latin then "latin"
    else if 7 * total < 10 * cyr then "cyrillic"
    else if 7 * total < 10 * cjk then "cjk"
    else "mixed"

/-- A word character for the `\b` in `re.search(r'\b[A-Z]\.$', name)`
(alphanumerics, underscore, and non-ASCII word characters). -/
def isWordChar (c : Char) : Bool :=
  isLatinLetter c || (48 ≤ c.toNat && c.toNat ≤ 57) || c == '_' || 128 ≤ c.toNat

/-- `re.search(r'\b[A-Z]\.$', name)`: the name ends in a capital letter plus
period forming its own word. -/
def hasInitialFlag (name : String) : Bool :=
  match name.data.reverse with
  | '.' :: c :: rest =>
      (65 ≤ c.toNat && c.toNat ≤ 90) &&
      (match rest with
       | [] => true
       | p :: _ => !isWordChar p)
  | _ => false

/-- `DecisionTraceLogger._redact_name`, rendered as the JSON object
`{hash, tokens, length, script, has_initial}`. -/
def redactName (salt name : String) : String :=
  jObj
    [("hash", jStr (hashText salt name)),
     ("tokens", toString (pySplit name).length),
     ("length", toString name.data.length),
     ("script", jStr (detectScript name)),
     ("has_initial", if hasInitialFlag name then "true" else "false")]

/-- `DecisionTraceLogger._redact_mention`, rendered as a JSON object (keys in
the source's insertion order, each present under the source's condition). -/
def redactMention (salt : String) (m : Mention) : String :=
  jObj
    ((match m.name with
      | some nm => [("name", redactName salt nm)]
      | none => []) ++
     (match m.orcid with
      | some o => [("orcid", jStr o)]
      | none => []) ++
     (match m.affiliation with
      | .str s =>
          [("affiliation", jArr ((if s ≠ "" then [s] else []).map
             fun a => jStr (redactAffiliation salt a)))]
      | .list l =>
          [("affiliation", jArr ((l.filter (· ≠ "")).map
             fun a => jStr (redactAffiliation salt a)))]
      | .absent => []) ++
     (match m.coauthors with
      | some l => [("coauthor_count", toString l.length)]
      | none => []) ++
     (match m.journals with
      | some l =>
          [("journal_count", toString l.length)] ++
          (if l ≠ [] then
            [("journal_samples", jArr ((l.take 2).map
               fun j => jStr (pyTake 16 (redactText salt j))))]
          else [])
      | none => []))

/-- One rendered comparison value. -/
def renderCompVal : CompVal → String
  | .s v => jStr v
  | .q v => jNum v
  | .b v => if v then "true" else "false"

/-- The rendered key/value fields of `_build_redacted_trace`, in the source's
insertion order.  `ts` is the `datetime.utcnow().isoformat()` value. -/
def buildRedactedTraceFields (cfg : TraceConfig) (ts : String) (r : DecisionResult)
    (m : Mention) (metadata : List (String × String)) : List (String × String) :=
  [("timestamp", jStr ts),
   ("run_id", jOptStr r.run_id),
   ("mode", jStr r.mode),
   ("decision", jStr r.decision.value),
   ("score_total", jNum (round6 r.score_total)),
   ("score_components", jObj (r.score_components.map fun kv => (kv.1, jNum (round6 kv.2)))),
   ("comparisons", jObj (r.comparisons.map fun kv => (kv.1, renderCompVal kv.2))),
   ("thresholds", jObj (r.thresholds.map fun kv => (kv.1, jNum kv.2))),
   ("best_author_id", jOptStr r.best_author_id),
   ("topk", jArr (r.topk.map fun e =>
      jObj [("author_id", jStr e.author_id), ("score", jNum e.score),
            ("components", jObj (e.components.map fun kv => (kv.1, jNum kv.2)))])),
   ("reason", jStr r.reason),
   ("deterministic_hash", jStr r.deterministic_hash),
   ("candidate_count", toString r.candidate_count),
   ("blocking_keys", jArr (r.blocking_keys.map jStr)),
   ("mention", redactMention cfg.salt m)] ++
  (if metadata ≠ [] then
    [("metadata", jObj (metadata.map fun kv => (kv.1, jStr kv.2)))]
  else [])

/-- `DecisionTraceLogger._build_redacted_trace`, rendered as one JSONL line. -/
def buildRedactedTrace (cfg : TraceConfig) (ts : String) (r : DecisionResult)
    (m : Mention) (metadata : List (String × String)) : String :=
  jObj (buildRedactedTraceFields cfg ts r m metadata)

/-- The two output streams of the logger. -/
inductive TraceStream where
  | main
  | review
  deriving Repr, DecidableEq

/-- `DecisionTraceLogger.append_trace`: the list of `(stream, line)` appends
one call performs.  No `trace_path` → nothing at all; an UNKNOWN decision with
a configured `review_path` additionally appends the review record, which
carries `review_status: "pending"` and the review timestamp. -/
def appendTrace (cfg : TraceConfig) (ts tsReview reviewWallTs : String)
    (r : DecisionResult) (m : Mention) (metadata : List (String × String)) :
    List (TraceStream × String) :=
  match cfg.trace_path with
  | none => []
  | some _ =>
      (TraceStream.main, buildRedactedTrace cfg ts r m metadata) ::
      (if r.decision = .unknown then
        match cfg.review_path with
        | some _ =>
            [(TraceStream.review,
              jObj (buildRedactedTraceFields cfg tsReview r m metadata ++
                [("review_status", jStr "pending"),
                 ("review_timestamp", jStr reviewWallTs)]))]
        | none => []
      else [])

/-! ## Derived definitions used by the statements -/

/-- The per-feature Fellegi–Sunter term in the specification's words: the
`log` of `m/u` after substituting the floor `ε = 1e-10` for a zero `m` or `u`. -/
def specLlr (lg : ℚ → ℚ) (m u : ℚ) : ℚ :=
  lg ((if m = 0 then fsEpsilon else m) / (if u = 0 then fsEpsilon else u))

/-- The scored-candidate list `make_decision` builds from the retrieved
candidates, before sorting. -/
def engineScored (sc : Mention → Author → CompVec × ℚ × List (String × ℚ))
    (db : AuthorDatabase) (mention : Mention) : List ScoredCand :=
  (getCandidates db mention 100).map fun a =>
    let r := sc mention a
    ScoredCand.mk a.author_id r.2.1 r.2.2 r.1

/-- The per-candidate scores seen by the engine. -/
def candidateScores (sc : Mention → Author → CompVec × ℚ × List (String × ℚ))
    (db : AuthorDatabase) (mention : Mention) : List ℚ :=
  (engineScored sc db mention).map (·.score)

/-- Substring test (`sub in s` on Python strings). -/
def strContains (sub s : String) : Bool :=
  s.data.tails.any fun t => sub.data.isPrefixOf t

/-! ## Concrete instances for the end-to-end claims -/

/-- A scorer standing in for Fellegi–Sunter mode with an empty m/u table: every
bin is unknown to the table, so every candidate scores `0.0` with no
components (`score_fellegi_sunter` skips all features silently). -/
def scEmptyTable : Mention → Author → CompVec × ℚ × List (String × ℚ) :=
  fun _ _ =>
    let cmp : CompVec :=
      [("name_sim", .q 0), ("name_bin", .s "none"),
       ("orcid_match", .b false), ("orcid_bin", .s "missing"),
       ("coauthor_sim", .q 0), ("coauthor_bin", .s "none"),
       ("journal_sim", .q 0), ("journal_bin", .s "none"),
       ("affiliation_sim", .q 0), ("affiliation_bin", .s "none")]
    let r := scoreFellegiSunter (fun q => q - 1) false cmp []
    (cmp, r.1, r.2)

/-- Scenario for C7: the empty repository. -/
def dbEmpty : AuthorDatabase := {}

/-- Scenario for C7: the "Alice Wang" mention decided against the empty
repository. -/
def mentionAlice : Mention := { name := some "Alice Wang" }

/-- The decision of scenario C7 (default engine configuration). -/
def resultAlice : DecisionResult := makeDecision {} scEmptyTable dbEmpty mentionAlice

/-- Scenario for C2: a repository whose single author owns the mention's ORCID. -/
def dbOwner : AuthorDatabase :=
  addAuthor {} "au_b1c2d3e4"
    { name := some "Bob Smith", orcid := some "0000-0002-1825-0097" }

/-- Scenario for C2: a mention carrying the already-owned ORCID but scoring
`0.0` (below the reject threshold) against every candidate. -/
def mentionOwned : Mention :=
  { name := some "Totally Different", orcid := some "0000-0002-1825-0097" }

/-- The decision of scenario C2. -/
def resultOwned : DecisionResult := makeDecision {} scEmptyTable dbOwner mentionOwned

/-- Scenario for C5: three authors sharing the surname block, the third owning
the mention's ORCID and sorting last by `author_id`. -/
def dbTrunc : AuthorDatabase :=
  addAuthor
    (addAuthor
      (addAuthor {} "au_0000000a" { name := some "Alan Smith" })
      "au_0000000b" { name := some "Beth Smith" })
    "au_0000000c" { name := some "Carl Smith", orcid := some "0000-0001-5000-0007" }

/-- Scenario for C5: a mention with the owned ORCID and the shared surname. -/
def mentionTrunc : Mention :=
  { name := some "Quinn Smith", orcid := some "0000-0001-5000-0007" }

/-- Scenario for C6: a repository with one stored author. -/
def dbOneAuthor : AuthorDatabase :=
  addAuthor {} "au_00000001"
    { name := some "John Smith", orcid := some "0000-0003-1111-2222" }

/-- Scenario for C9: the trace-logger configuration with salt `"S"` and both
output paths set. -/
def cfgTraceS : TraceConfig :=
  { trace_path := some "trace.jsonl", review_path := some "review.jsonl", salt := "S" }

/-- Scenario for C9: the mention named `张伟`. -/
def mentionZhangWei : Mention :=
  { name := some "张伟", orcid := some "0000-0001-2345-6789",
    affiliation := .list ["Tsinghua University"],
    coauthors := some ["Li Ming", "Wang Qiang"],
    journals := some ["Nature", "Science"] }

/-- Scenario for C9: a MERGE decision result for the `张伟` mention. -/
def resultZhangWei : DecisionResult :=
  DecisionResult.postInit
    { decision := .merge
      best_author_id := some "au_12345"
      score_total := 92/100
      score_components := [("name", 95/100), ("orcid", 1), ("coauthor", 3/4)]
      comparisons := [("name_bin", .s "exact"), ("orcid_bin", .s "match")]
      thresholds := [("accept", 9/10), ("reject", 1/5)]
      mode := "fs"
      run_id := some "test_run_001" }

/-- Scenario for C9: the main-trace line written for the `张伟` mention. -/
def traceLineZhangWei : String :=
  buildRedactedTrace cfgTraceS "2026-01-01T00:00:00" resultZhangWei mentionZhangWei []

/-- The author object `addAuthor` stores for the C2 scenario. -/
def bobSmith : Author :=
  { author_id := "au_b1c2d3e4", canonical_name := "Bob Smith",
    orcid := some "0000-0002-1825-0097", alternate_names := ["Bob Smith"] }

/-- The author object `addAuthor` stores for the ORCID owner of the C5
scenario. -/
def carlSmith : Author :=
  { author_id := "au_0000000c", canonical_name := "Carl Smith",
    orcid := some "0000-0001-5000-0007", alternate_names := ["Carl Smith"] }

/-- Scenario for C3: a decision record before `__post_init__`. -/
def preResultA : DecisionResult :=
  { decision := .merge
    best_author_id := some "au_12345"
    score_total := 85/100
    score_components := [("name", 9/10), ("orcid", 8/10)]
    comparisons := [("name_bin", .s "exact")]
    thresholds := [("accept", 9/10), ("reject", 1/5)]
    mode := "baseline"
    run_id := some "run_A"
    candidate_count := 5
    blocking_keys := ["surname:smith"] }

/-- Scenario for C3: a second record agreeing with `preResultA` on exactly the
six hashed fields but differing in comparisons, top-k, run id, candidate count
and blocking keys. -/
def preResultB : DecisionResult :=
  { decision := .merge
    best_author_id := some "au_12345"
    score_total := 85/100
    score_components := [("name", 9/10), ("orcid", 8/10)]
    comparisons := [("orcid_bin", .s "match"), ("name_sim", .q (1/2))]
    thresholds := [("accept", 9/10), ("reject", 1/5)]
    mode := "baseline"
    topk := [TopkEntry.mk "au_12345" (85/100) []]
    run_id := some "run_B"
    candidate_count := 7
    blocking_keys := ["orcid:0000-0001-2345-6789"] }

/-- Scenario for the C4 witness: a two-feature m/u table (with a zero `u` to
exercise the ε-floor). -/
def muTableW : MuTable :=
  [("name", [("exact", (19/20, 1/100))]), ("orcid", [("match", (99/100, 0))])]

/-- Scenario for the C4 witness: a comparison vector that matches on name and
ORCID and misses the table on the remaining features. -/
def cmpW : CompVec :=
  [("name_sim", .q 1), ("name_bin", .s "exact"),
   ("orcid_match", .b true), ("orcid_bin", .s "match"),
   ("coauthor_sim", .q 0), ("coauthor_bin", .s "none"),
   ("journal_sim", .q 0), ("journal_bin", .s "none"),
   ("affiliation_sim", .q 0), ("affiliation_bin", .s "none")]

/-! ## Supporting lemmas -/

theorem postInitHash_decision (r : DecisionResult) :
    (postInitHash r).decision = r.decision := by
  unfold postInitHash
  split <;> rfl

theorem postInitReason_decision (r : DecisionResult) :
    (postInitReason r).decision = r.decision := by
  unfold postInitReason
  split <;> rfl

theorem postInit_decision (r : DecisionResult) : r.postInit.decision = r.decision := by
  unfold DecisionResult.postInit
  rw [postInitReason_decision, postInitHash_decision]

theorem postInitHash_score_total (r : DecisionResult) :
    (postInitHash r).score_total = r.score_total := by
  unfold postInitHash
  split <;> rfl

theorem postInitReason_score_total (r : DecisionResult) :
    (postInitReason r).score_total = r.score_total := by
  unfold postInitReason
  split <;> rfl

theorem postInit_score_total (r : DecisionResult) :
    r.postInit.score_total = r.score_total := by
  unfold DecisionResult.postInit
  rw [postInitReason_score_total, postInitHash_score_total]

theorem postInitHash_best_author_id (r : DecisionResult) :
    (postInitHash r).best_author_id = r.best_author_id := by
  unfold postInitHash
  split <;> rfl

theorem postInitReason_best_author_id (r : DecisionResult) :
    (postInitReason r).best_author_id = r.best_author_id := by
  unfold postInitReason
  split <;> rfl

theorem postInit_best_author_id (r : DecisionResult) :
    r.postInit.best_author_id = r.best_author_id := by
  unfold DecisionResult.postInit
  rw [postInitReason_best_author_id, postInitHash_best_author_id]

theorem postInitHash_topk (r : DecisionResult) : (postInitHash r).topk = r.topk := by
  unfold postInitHash
  split <;> rfl

theorem postInitReason_topk (r : DecisionResult) : (postInitReason r).topk = r.topk := by
  unfold postInitReason
  split <;> rfl

theorem postInit_topk (r : DecisionResult) : r.postInit.topk = r.topk := by
  unfold DecisionResult.postInit
  rw [postInitReason_topk, postInitHash_topk]

theorem length_insertByScoreDesc (x : ScoredCand) (l : List ScoredCand) :
    (insertByScoreDesc x l).length = l.length + 1 := by
  induction l with
  | nil => rfl
  | cons y t ih =>
      unfold insertByScoreDesc
      split
      · rfl
      · simp [ih]

theorem length_sortByScoreDesc (l : List ScoredCand) :
    (sortByScoreDesc l).length = l.length := by
  induction l with
  | nil => rfl
  | cons x t ih => simp [sortByScoreDesc, List.foldr] at ih ⊢
                   rw [length_insertByScoreDesc, ih]

theorem mem_insertByScoreDesc {y x : ScoredCand} {l : List ScoredCand} :
    y ∈ insertByScoreDesc x l ↔ y = x ∨ y ∈ l := by
  induction l with
  | nil => simp [insertByScoreDesc]
  | cons z t ih =>
      unfold insertByScoreDesc
      split
      · simp
      · simp only [List.mem_cons, ih]
        tauto

theorem mem_sortByScoreDesc {y : ScoredCand} {l : List ScoredCand} :
    y ∈ sortByScoreDesc l ↔ y ∈ l := by
  induction l with
  | nil => simp [sortByScoreDesc]
  | cons x t ih =>
      simp only [sortByScoreDesc, List.foldr] at ih ⊢
      rw [mem_insertByScoreDesc, ih, List.mem_cons]

theorem pairwise_scores_insertByScoreDesc {x : ScoredCand} {l : List ScoredCand}
    (h : l.Pairwise fun a b => b.score ≤ a.score) :
    (insertByScoreDesc x l).Pairwise fun a b => b.score ≤ a.score := by
  induction l with
  | nil => simp [insertByScoreDesc]
  | cons y t ih =>
      rw [List.pairwise_cons] at h
      unfold insertByScoreDesc
      split
      · rename_i hyx
        refine List.pairwise_cons.mpr ⟨?_, List.pairwise_cons.mpr h⟩
        intro z hz
        rcases List.mem_cons.mp hz with rfl | hz
        · exact hyx
        · exact le_trans (h.1 z hz) hyx
      · rename_i hyx
        refine List.pairwise_cons.mpr ⟨?_, ih h.2⟩
        intro z hz
        rcases mem_insertByScoreDesc.mp hz with rfl | hz
        · exact le_of_not_le hyx
        · exact h.1 z hz

theorem pairwise_scores_sortByScoreDesc (l : List ScoredCand) :
    (sortByScoreDesc l).Pairwise fun a b => b.score ≤ a.score := by
  induction l with
  | nil => simp [sortByScoreDesc]
  | cons x t ih => exact pairwise_scores_insertByScoreDesc ih

theorem headD_score_max {l : List ScoredCand} {d : ScoredCand} {y : ScoredCand}
    (hy : y ∈ sortByScoreDesc l) :
    y.score ≤ ((sortByScoreDesc l).headD d).score := by
  have hp := pairwise_scores_sortByScoreDesc l
  cases hs : sortByScoreDesc l with
  | nil => rw [hs] at hy; cases hy
  | cons h t =>
      rw [hs] at hy hp
      rcases List.mem_cons.mp hy with rfl | hy
      · simp
      · exact (List.pairwise_cons.mp hp).1 y hy

theorem headD_mem {α : Type} {l : List α} (d : α) (h : l ≠ []) : l.headD d ∈ l := by
  cases l with
  | nil => exact absurd rfl h
  | cons x t => simp

theorem strLeChars_refl (l : List Char) : strLeChars l l = true := by
  induction l with
  | nil => rfl
  | cons c t ih => simp [strLeChars, ih]

theorem strLeChars_of_not (a b : List Char) (h : strLeChars a b = false) :
    strLeChars b a = true := by
  induction a generalizing b with
  | nil => simp [strLeChars] at h
  | cons x xs ih =>
      cases b with
      | nil => simp [strLeChars]
      | cons y ys =>
          unfold strLeChars at h ⊢
          by_cases h1 : x.toNat < y.toNat
          · simp [h1] at h
          · by_cases h2 : y.toNat < x.toNat
            · simp [h2]
            · have h3 : ¬ y.toNat < x.toNat := h2
              simp [h1, h2] at h
              simp [h1, h2, ih _ h]

theorem strLeChars_antisymm (a b : List Char) (h1 : strLeChars a b = true)
    (h2 : strLeChars b a = true) : a = b := by
  induction a generalizing b with
  | nil =>
      cases b with
      | nil => rfl
      | cons y ys => simp [strLeChars] at h2
  | cons x xs ih =>
      cases b with
      | nil => simp [strLeChars] at h1
      | cons y ys =>
          unfold strLeChars at h1 h2
          by_cases hxy : x.toNat < y.toNat
          · have : ¬ y.toNat < x.toNat := by omega
            simp [hxy, this] at h2
          · by_cases hyx : y.toNat < x.toNat
            · simp [hxy, hyx] at h1
            · have hx : x = y := by
                apply Char.ext
                apply UInt32.ext
                change x.toNat = y.toNat
                omega
              simp [hxy, hyx] at h1 h2
              rw [hx, ih ys h1 h2]

theorem strLeChars_trans (a b c : List Char) (h1 : strLeChars a b = true)
    (h2 : strLeChars b c = true) : strLeChars a c = true := by
  induction a generalizing b c with
  | nil => simp [strLeChars]
  | cons x xs ih =>
      cases b with
      | nil => simp [strLeChars] at h1
      | cons y ys =>
          cases c with
          | nil => simp [strLeChars] at h2
          | cons z zs =>
              unfold strLeChars at h1 h2 ⊢
              by_cases hyx : y.toNat < x.toNat
              · have hxy : ¬ x.toNat < y.toNat := by omega
                simp [hxy, hyx] at h1
              · by_cases hzy : z.toNat < y.toNat
                · have hyz : ¬ y.toNat < z.toNat := by omega
                  simp [hyz, hzy] at h2
                · by_cases hxz : x.toNat < z.toNat
                  · simp [hxz]
                  · have hxy : ¬ x.toNat < y.toNat := by omega
                    have hyz : ¬ y.toNat < z.toNat := by omega
                    have hzx : ¬ z.toNat < x.toNat := by omega
                    simp [hxy, hyx] at h1
                    simp [hyz, hzy] at h2
                    simp [hxz, hzx]
                    exact ih ys zs h1 h2

theorem pyStrLe_refl (a : String) : pyStrLe a a = true := strLeChars_refl a.data

theorem pyStrLe_of_not {a b : String} (h : pyStrLe a b = false) :
    pyStrLe b a = true := strLeChars_of_not a.data b.data h

theorem pyStrLe_antisymm {a b : String} (h1 : pyStrLe a b = true)
    (h2 : pyStrLe b a = true) : a = b := by
  have h := strLeChars_antisymm a.data b.data h1 h2
  cases a
  cases b
  exact congrArg String.mk h

theorem pyStrLe_trans {a b c : String} (h1 : pyStrLe a b = true)
    (h2 : pyStrLe b c = true) : pyStrLe a c = true :=
  strLeChars_trans a.data b.data c.data h1 h2

theorem pyStrLt_iff {a b : String} :
    pyStrLt a b = true ↔ pyStrLe a b = true ∧ a ≠ b := by
  simp [pyStrLt]

theorem length_insertById (a : Author) (l : List Author) :
    (insertById a l).length = l.length + 1 := by
  induction l with
  | nil => rfl
  | cons b t ih =>
      unfold insertById
      split
      · rfl
      · simp [ih]

theorem length_sortById (l : List Author) : (sortById l).length = l.length := by
  induction l with
  | nil => rfl
  | cons x t ih =>
      simp only [sortById, List.foldr] at ih ⊢
      rw [length_insertById, ih]
      rfl

theorem insertById_perm (a : Author) (l : List Author) :
    List.Perm (insertById a l) (a :: l) := by
  induction l with
  | nil => rfl
  | cons b t ih =>
      unfold insertById
      split
      · rfl
      · exact ((ih.cons b).trans (List.Perm.swap a b t))

theorem sortById_perm (l : List Author) : List.Perm (sortById l) l := by
  induction l with
  | nil => rfl
  | cons x t ih =>
      simp only [sortById, List.foldr] at ih ⊢
      exact (insertById_perm x _).trans (ih.cons x)

theorem mem_sortById {y : Author} {l : List Author} : y ∈ sortById l ↔ y ∈ l :=
  (sortById_perm l).mem_iff

theorem pairwise_le_insertById {a : Author} {l : List Author}
    (h : l.Pairwise fun x y => pyStrLe x.author_id y.author_id = true) :
    (insertById a l).Pairwise fun x y => pyStrLe x.author_id y.author_id = true := by
  induction l with
  | nil => simp [insertById]
  | cons b t ih =>
      rw [List.pairwise_cons] at h
      unfold insertById
      split
      · rename_i hab
        refine List.pairwise_cons.mpr ⟨?_, List.pairwise_cons.mpr h⟩
        intro z hz
        rcases List.mem_cons.mp hz with rfl | hz
        · exact hab
        · exact pyStrLe_trans hab (h.1 z hz)
      · rename_i hab
        refine List.pairwise_cons.mpr ⟨?_, ih h.2⟩
        intro z hz
        have := (insertById_perm a t).mem_iff.mp hz
        rcases List.mem_cons.mp this with rfl | hz'
        · exact pyStrLe_of_not (Bool.eq_false_iff.mpr hab)
        · exact h.1 z hz'

theorem pairwise_le_sortById (l : List Author) :
    (sortById l).Pairwise fun x y => pyStrLe x.author_id y.author_id = true := by
  induction l with
  | nil => simp [sortById]
  | cons x t ih => exact pairwise_le_insertById ih

theorem nodupIds_dedupInsert {acc : List Author} {a : Author}
    (h : (acc.map (·.author_id)).Nodup) :
    ((dedupInsert acc a).map (·.author_id)).Nodup := by
  unfold dedupInsert
  split
  · exact h
  · rename_i hnone
    rw [List.map_append]
    simp only [List.map_cons, List.map_nil]
    rw [List.nodup_append]
    refine ⟨h, List.nodup_singleton _, ?_⟩
    intro i hi hi2
    rcases List.mem_map.mp hi with ⟨b, hb, rfl⟩
    rcases List.mem_singleton.mp hi2 with hba
    exact hnone (List.any_eq_true.mpr ⟨b, hb, beq_iff_eq.mpr hba⟩)

theorem nodupIds_foldl_dedupInsert {acc : List Author} (l : List Author)
    (h : (acc.map (·.author_id)).Nodup) :
    (((l.foldl dedupInsert acc).map (·.author_id))).Nodup := by
  induction l generalizing acc with
  | nil => exact h
  | cons x t ih => exact ih (nodupIds_dedupInsert h)

theorem nodupIds_foldl_aff {acc : List Author} (f : String → List Author)
    (affs : List String) (h : (acc.map (·.author_id)).Nodup) :
    (((affs.foldl
        (fun acc aff => if aff ≠ "" then (f aff).foldl dedupInsert acc else acc)
        acc).map (·.author_id))).Nodup := by
  induction affs generalizing acc with
  | nil => exact h
  | cons x t ih =>
      simp only [List.foldl]
      split
      · exact ih (nodupIds_foldl_dedupInsert _ h)
      · exact ih h

theorem nodupIds_candidateUnion (db : AuthorDatabase) (mention : Mention) :
    ((candidateUnion db mention).map (·.author_id)).Nodup := by
  unfold candidateUnion
  apply nodupIds_foldl_aff
  cases mention.orcid <;> cases mention.name <;>
    simp only [] <;>
    repeat
      first
      | exact List.nodup_nil
      | apply nodupIds_foldl_dedupInsert
      | split

theorem pairwise_lt_getCandidates (db : AuthorDatabase) (mention : Mention)
    (max_candidates : Nat) :
    (getCandidates db mention max_candidates).Pairwise
      fun a b => pyStrLt a.author_id b.author_id = true := by
  have hps := pairwise_le_sortById (candidateUnion db mention)
  have hnodup : ((sortById (candidateUnion db mention)).map (·.author_id)).Nodup :=
    ((sortById_perm (candidateUnion db mention)).map (·.author_id)).nodup_iff.mpr
      (nodupIds_candidateUnion db mention)
  have hne : (sortById (candidateUnion db mention)).Pairwise
      fun a b => a.author_id ≠ b.author_id := List.pairwise_map.mp hnodup
  have hlt : (sortById (candidateUnion db mention)).Pairwise
      fun a b => pyStrLt a.author_id b.author_id = true := by
    refine (hps.and hne).imp ?_
    intro a b hab
    exact pyStrLt_iff.mpr ⟨hab.1, fun h => hab.2 (by rw [h])⟩
  simp only [getCandidates]
  split
  · exact hlt.sublist (List.take_sublist _ _)
  · exact hlt

theorem pairwise_lt_engineScored
    (sc : Mention → Author → CompVec × ℚ × List (String × ℚ))
    (db : AuthorDatabase) (mention : Mention) :
    (engineScored sc db mention).Pairwise
      fun a b => pyStrLt a.author_id b.author_id = true := by
  unfold engineScored
  rw [List.pairwise_map]
  exact pairwise_lt_getCandidates db mention 100

theorem score_le_of_lex {a b : ScoredCand}
    (h : b.score < a.score ∨ (a.score = b.score ∧ pyStrLt a.author_id b.author_id = true)) :
    b.score ≤ a.score := by
  rcases h with h | ⟨h, _⟩
  · exact le_of_lt h
  · exact le_of_eq h.symm

theorem pairwise_lex_insertByScoreDesc {x : ScoredCand} {l : List ScoredCand}
    (hl : l.Pairwise fun a b =>
      b.score < a.score ∨ (a.score = b.score ∧ pyStrLt a.author_id b.author_id = true))
    (hx : ∀ y ∈ l, x.score = y.score → pyStrLt x.author_id y.author_id = true) :
    (insertByScoreDesc x l).Pairwise fun a b =>
      b.score < a.score ∨ (a.score = b.score ∧ pyStrLt a.author_id b.author_id = true) := by
  induction l with
  | nil => simp [insertByScoreDesc]
  | cons y t ih =>
      rw [List.pairwise_cons] at hl
      unfold insertByScoreDesc
      split
      · rename_i hyx
        refine List.pairwise_cons.mpr ⟨?_, List.pairwise_cons.mpr hl⟩
        intro z hz
        rcases List.mem_cons.mp hz with rfl | hz
        · rcases lt_or_eq_of_le hyx with h | h
          · exact Or.inl h
          · exact Or.inr ⟨h.symm, hx z (List.mem_cons_self _ _) h.symm⟩
        · have hzy : z.score ≤ y.score := score_le_of_lex (hl.1 z hz)
          rcases lt_or_eq_of_le (le_trans hzy hyx) with h | h
          · exact Or.inl h
          · exact Or.inr ⟨h.symm, hx z (List.mem_cons_of_mem _ hz) h.symm⟩
      · rename_i hyx
        refine List.pairwise_cons.mpr ⟨?_, ih hl.2 ?_⟩
        · intro z hz
          rcases mem_insertByScoreDesc.mp hz with rfl | hz
          · exact Or.inl (lt_of_not_le hyx)
          · exact hl.1 z hz
        · intro z hz he
          exact hx z (List.mem_cons_of_mem _ hz) he

theorem pairwise_lex_sortByScoreDesc {l : List ScoredCand}
    (hl : l.Pairwise fun a b => pyStrLt a.author_id b.author_id = true) :
    (sortByScoreDesc l).Pairwise fun a b =>
      b.score < a.score ∨ (a.score = b.score ∧ pyStrLt a.author_id b.author_id = true) := by
  induction l with
  | nil => simp [sortByScoreDesc]
  | cons x t ih =>
      rw [List.pairwise_cons] at hl
      simp only [sortByScoreDesc, List.foldr] at ih ⊢
      refine pairwise_lex_insertByScoreDesc (ih hl.2) ?_
      intro y hy _
      exact hl.1 y (mem_sortByScoreDesc.mp hy)

/-- `make_decision` on a non-empty candidate list, unfolded to its pieces. -/
theorem makeDecision_eq_of_candidates
    (cfg : AuthorMerger) (sc : Mention → Author → CompVec × ℚ × List (String × ℚ))
    (db : AuthorDatabase) (mention : Mention) {c : Author} {cs : List Author}
    (hc : getCandidates db mention 100 = c :: cs) :
    makeDecision cfg sc db mention =
      (let scored := (c :: cs).map fun a =>
        let r := sc mention a
        ScoredCand.mk a.author_id r.2.1 r.2.2 r.1
      let sorted := sortByScoreDesc scored
      let best := sorted.headD (ScoredCand.mk "" 0 [] [])
      let decision : Decision :=
        if cfg.accept_threshold ≤ best.score then .merge
        else if best.score ≤ cfg.reject_threshold then .new
        else .unknown
      let topkList := (sorted.take cfg.topk).map fun cand =>
        TopkEntry.mk cand.author_id (round6 cand.score)
          (cand.components.map fun kv => (kv.1, round6 kv.2))
      DecisionResult.postInit
        { decision := decision
          best_author_id := if decision = .merge then some best.author_id else none
          score_total := best.score
          score_components := best.components
          comparisons := best.comparisons
          thresholds := [("accept", cfg.accept_threshold), ("reject", cfg.reject_threshold)]
          mode := cfg.mode
          topk := topkList
          run_id := cfg.run_id
          candidate_count := (c :: cs).length
          blocking_keys := extractBlockingKeysMention mention }) := by
  unfold makeDecision
  rw [hc]

/-! ## Claim theorems -/

theorem makeDecision_threshold_spec
    (cfg : AuthorMerger) (sc : Mention → Author → CompVec × ℚ × List (String × ℚ))
    (db : AuthorDatabase) (mention : Mention)
    (hne : getCandidates db mention 100 ≠ []) :
    (makeDecision cfg sc db mention).score_total ∈ candidateScores sc db mention ∧
    (∀ s ∈ candidateScores sc db mention,
      s ≤ (makeDecision cfg sc db mention).score_total) ∧
    (cfg.accept_threshold ≤ (makeDecision cfg sc db mention).score_total →
      (makeDecision cfg sc db mention).decision = .merge) ∧
    ((makeDecision cfg sc db mention).score_total ≤ cfg.reject_threshold →
      ¬ cfg.accept_threshold ≤ (makeDecision cfg sc db mention).score_total →
      (makeDecision cfg sc db mention).decision = .new) ∧
    (cfg.reject_threshold < (makeDecision cfg sc db mention).score_total →
      (makeDecision cfg sc db mention).score_total < cfg.accept_threshold →
      (makeDecision cfg sc db mention).decision = .unknown) ∧
    ((makeDecision cfg sc db mention).decision ≠ .merge →
      (makeDecision cfg sc db mention).best_author_id = none) := by
  cases hc : getCandidates db mention 100 with
  | nil => exact absurd hc hne
  | cons c cs =>
      rw [makeDecision_eq_of_candidates cfg sc db mention hc]
      simp only [postInit_decision, postInit_score_total, postInit_best_author_id]
      have hscored : candidateScores sc db mention =
          ((c :: cs).map fun a =>
            let r := sc mention a
            ScoredCand.mk a.author_id r.2.1 r.2.2 r.1).map (·.score) := by
        unfold candidateScores engineScored
        rw [hc]
      set scored := (c :: cs).map fun a =>
        let r := sc mention a
        ScoredCand.mk a.author_id r.2.1 r.2.2 r.1 with hsc'
      have hsne : sortByScoreDesc scored ≠ [] := by
        intro h
        have := length_sortByScoreDesc scored
        rw [h] at this
        simp [hsc'] at this
      set best := (sortByScoreDesc scored).headD (ScoredCand.mk "" 0 [] []) with hbest
      have hbmem : best ∈ scored := mem_sortByScoreDesc.mp (headD_mem _ hsne)
      refine ⟨?_, ?_, ?_, ?_, ?_, ?_⟩
      · rw [hscored]
        exact List.mem_map.mpr ⟨best, hbmem, rfl⟩
      · intro s hs
        rw [hscored] at hs
        rcases List.mem_map.mp hs with ⟨y, hy, rfl⟩
        exact headD_score_max (mem_sortByScoreDesc.mpr hy)
      · intro h
        simp only [if_pos h]
      · intro h1 h2
        simp only [if_neg h2, if_pos h1]
      · intro h1 h2
        have hna : ¬ cfg.accept_threshold ≤ best.score := not_le.mpr h2
        have hnr : ¬ best.score ≤ cfg.reject_threshold := not_le.mpr h1
        simp only [if_neg hna, if_neg hnr]
      · intro hnm
        by_cases h1 : cfg.accept_threshold ≤ best.score
        · exact absurd (by simp only [if_pos h1]) hnm
        · simp only [if_neg h1]
          split <;> simp

/-- C1.  For every mention whose blocking retrieval returns a non-empty
candidate list, the engine's decision is determined by the highest candidate
score `s*` (= `score_total` of the result, which is the maximum of the
per-candidate scores): `s* ≥ accept` yields MERGE (equality included),
`s* ≤ reject` yields NEW (equality included), and strictly between the
thresholds yields UNKNOWN. -/
theorem dual_threshold_three_way_decision
    (cfg : AuthorMerger) (sc : Mention → Author → CompVec × ℚ × List (String × ℚ))
    (db : AuthorDatabase) (mention : Mention)
    (hne : getCandidates db mention 100 ≠ []) :
    (makeDecision cfg sc db mention).score_total ∈ candidateScores sc db mention ∧
    (∀ s ∈ candidateScores sc db mention,
      s ≤ (makeDecision cfg sc db mention).score_total) ∧
    (cfg.accept_threshold ≤ (makeDecision cfg sc db mention).score_total →
      (makeDecision cfg sc db mention).decision = .merge) ∧
    ((makeDecision cfg sc db mention).score_total ≤ cfg.reject_threshold →
      ¬ cfg.accept_threshold ≤ (makeDecision cfg sc db mention).score_total →
      (makeDecision cfg sc db mention).decision = .new) ∧
    (cfg.reject_threshold < (makeDecision cfg sc db mention).score_total →
      (makeDecision cfg sc db mention).score_total < cfg.accept_threshold →
      (makeDecision cfg sc db mention).decision = .unknown) := by
  obtain ⟨h1, h2, h3, h4, h5, _⟩ := makeDecision_threshold_spec cfg sc db mention hne
  exact ⟨h1, h2, h3, h4, h5⟩

/-- Witness for C1: on a concrete repository with one candidate scoring `0.0`
against thresholds `accept = 0.9`, `reject = 0.2`, the rule yields NEW. -/
theorem dual_threshold_three_way_decision_witness :
    (makeDecision {} scEmptyTable dbOwner mentionOwned).decision = Decision.new :=
  (dual_threshold_three_way_decision {} scEmptyTable dbOwner mentionOwned
    (by decide)).2.2.2.1 (by decide) (by decide)

/-- C8.  The engine's scored-candidate ordering is the lexicographic order
(score descending, then `author_id` ascending): equal scores are ordered by
`author_id` ascending, because the stable sort receives the candidates sorted
by `author_id` with no duplicate ids.  The engine's `topk` is exactly the
prefix of that ordering, so the top candidate and the order of `top_k` are
determined by the inputs alone. -/
theorem equal_scores_ordered_by_author_id
    (cfg : AuthorMerger) (sc : Mention → Author → CompVec × ℚ × List (String × ℚ))
    (db : AuthorDatabase) (mention : Mention) :
    (sortByScoreDesc (engineScored sc db mention)).Pairwise
      (fun a b => b.score < a.score ∨
        (a.score = b.score ∧ pyStrLt a.author_id b.author_id = true)) ∧
    (makeDecision cfg sc db mention).topk =
      ((sortByScoreDesc (engineScored sc db mention)).take cfg.topk).map
        (fun cand => TopkEntry.mk cand.author_id (round6 cand.score)
          (cand.components.map fun kv => (kv.1, round6 kv.2))) := by
  constructor
  · exact pairwise_lex_sortByScoreDesc (pairwise_lt_engineScored sc db mention)
  · cases hc : getCandidates db mention 100 with
    | nil =>
        have he : engineScored sc db mention = [] := by
          unfold engineScored
          rw [hc]
          rfl
        have h1 : makeDecision cfg sc db mention =
            makeNewDecision cfg 0 [] [] (extractBlockingKeysMention mention) := by
          unfold makeDecision
          rw [hc]
        rw [h1, he]
        unfold makeNewDecision
        rw [postInit_topk]
        simp [sortByScoreDesc]
    | cons c cs =>
        rw [makeDecision_eq_of_candidates cfg sc db mention hc]
        simp only [postInit_topk]
        unfold engineScored
        rw [hc]

theorem lookup_mem {α : Type} [BEq α] [LawfulBEq α] {β : Type} {l : List (α × β)}
    {k : α} {v : β} (h : l.lookup k = some v) : (k, v) ∈ l := by
  induction l with
  | nil => cases h
  | cons p t ih =>
      rw [List.lookup] at h
      split at h
      · rename_i heq
        cases h
        have : k = p.1 := eq_of_beq heq
        rw [this]
        exact List.mem_cons_self _ _
      · exact List.mem_cons_of_mem _ (ih h)

theorem muLookup_mem {table : MuTable} {f : String} {v : CompVal} {mu : ℚ × ℚ}
    (h : muLookup table f v = some mu) :
    ∃ bins, (f, bins) ∈ table ∧ ∃ b, v = .s b ∧ (b, mu) ∈ bins := by
  cases v with
  | s b =>
      unfold muLookup at h
      cases hb : table.lookup f with
      | none => rw [hb] at h; cases h
      | some bins =>
          rw [hb] at h
          exact ⟨bins, lookup_mem hb, b, rfl, lookup_mem h⟩
  | q v => cases h
  | b v => cases h

theorem llrOf_eq_specLlr {lg : ℚ → ℚ} {m u : ℚ} (hlg : lg 1 = 0) (hm : 0 ≤ m) :
    llrOf lg m u = specLlr lg m u := by
  unfold llrOf specLlr
  by_cases hu : u = 0
  · by_cases hm0 : 0 < m
    · have : m ≠ 0 := ne_of_gt hm0
      simp [hu, hm0, this]
    · have : m = 0 := le_antisymm (not_lt.mp hm0) hm
      have hε : fsEpsilon ≠ 0 := by norm_num [fsEpsilon]
      simp [hu, hm0, this, div_self hε, hlg]
  · by_cases hm0 : m = 0
    · simp [hu, hm0]
    · simp [hu, hm0]

theorem scoreFS_foldl_char (lg : ℚ → ℚ) (cmp : CompVec) (table : MuTable)
    (mappings : List (String × String)) (acc : ℚ × List (String × ℚ)) :
    mappings.foldl
      (fun acc ckmk =>
        match cmp.lookup ckmk.1 with
        | none => acc
        | some v =>
            match muLookup table ckmk.2 v with
            | none => acc
            | some mu =>
                let llr := llrOf lg mu.1 mu.2
                (acc.1 + llr, acc.2 ++ [(ckmk.2, llr)])) acc =
    (acc.1 + ((mappings.filterMap fun ckmk =>
        (cmp.lookup ckmk.1).bind fun v =>
          (muLookup table ckmk.2 v).map fun mu =>
            (ckmk.2, llrOf lg mu.1 mu.2)).map (·.2)).sum,
     acc.2 ++ (mappings.filterMap fun ckmk =>
        (cmp.lookup ckmk.1).bind fun v =>
          (muLookup table ckmk.2 v).map fun mu =>
            (ckmk.2, llrOf lg mu.1 mu.2))) := by
  induction mappings generalizing acc with
  | nil => simp
  | cons ckmk t ih =>
      simp only [List.foldl, List.filterMap]
      cases hck : cmp.lookup ckmk.1 with
      | none =>
          simp only [Option.none_bind]
          exact ih acc
      | some v =>
          cases hmu : muLookup table ckmk.2 v with
          | none =>
              simp only [Option.some_bind, hmu, Option.map_none']
              exact ih acc
          | some mu =>
              simp only [Option.some_bind, hmu, Option.map_some']
              rw [ih]
              simp only [List.map_cons, List.sum_cons, Prod.mk.injEq]
              constructor
              · ring
              · simp

/-- C4.  The Fellegi–Sunter scorer contributes, for each feature whose bin the
comparison vector and the m/u table both know, exactly the term
`log(m/u)` with the floor `ε = 1e-10` substituted for a zero `m` or `u`; it
skips every feature or bin the table does not know (the `filterMap`
characterisation), and its `score_total` is the sum of the recorded
components.  `lg` abstracts `math.log`; the only facts used are `lg 1 = 0` and
the non-negativity of the stored `m` values. -/
theorem fs_score_is_sum_of_eps_floored_log_components
    (lg : ℚ → ℚ) (enableChinese : Bool) (cmp : CompVec) (table : MuTable)
    (hlg : lg 1 = 0)
    (hpos : ∀ p ∈ table, ∀ q ∈ p.2, 0 ≤ q.2.1) :
    (scoreFellegiSunter lg enableChinese cmp table).2 =
      ((featureMappings enableChinese cmp).filterMap fun ckmk =>
        (cmp.lookup ckmk.1).bind fun v =>
          (muLookup table ckmk.2 v).map fun mu =>
            (ckmk.2, specLlr lg mu.1 mu.2)) ∧
    (scoreFellegiSunter lg enableChinese cmp table).1 =
      ((scoreFellegiSunter lg enableChinese cmp table).2.map (·.2)).sum := by
  have hcongr : ((featureMappings enableChinese cmp).filterMap fun ckmk =>
      (cmp.lookup ckmk.1).bind fun v =>
        (muLookup table ckmk.2 v).map fun mu =>
          (ckmk.2, llrOf lg mu.1 mu.2)) =
    ((featureMappings enableChinese cmp).filterMap fun ckmk =>
      (cmp.lookup ckmk.1).bind fun v =>
        (muLookup table ckmk.2 v).map fun mu =>
          (ckmk.2, specLlr lg mu.1 mu.2)) := by
    apply List.filterMap_congr
    intro ckmk _
    cases hck : cmp.lookup ckmk.1 with
    | none => rfl
    | some v =>
        cases hmu : muLookup table ckmk.2 v with
        | none => simp only [Option.some_bind, hmu, Option.map_none']
        | some mu =>
            simp only [Option.some_bind, hmu, Option.map_some']
            rcases muLookup_mem hmu with ⟨bins, hbins, b, _, hbmu⟩
            rw [@llrOf_eq_specLlr lg mu.1 mu.2 hlg (hpos _ hbins _ hbmu)]
  unfold scoreFellegiSunter
  rw [scoreFS_foldl_char]
  refine ⟨by simpa using hcongr, ?_⟩
  simp [hcongr]

/-- Witness for C4: with `lg q = q - 1`, a table carrying `name.exact` with
`m/u = 0.95/0.01` and `orcid.match` with `m = 0.99`, `u = 0` (exercising the
ε-floor), and a comparison vector matching on name and ORCID, the
characterisation holds. -/
theorem fs_score_is_sum_of_eps_floored_log_components_witness :
    (scoreFellegiSunter (fun q => q - 1) false cmpW muTableW).2 =
      ((featureMappings false cmpW).filterMap fun ckmk =>
        (cmpW.lookup ckmk.1).bind fun v =>
          (muLookup muTableW ckmk.2 v).map fun mu =>
            (ckmk.2, specLlr (fun q => q - 1) mu.1 mu.2)) ∧
    (scoreFellegiSunter (fun q => q - 1) false cmpW muTableW).1 =
      ((scoreFellegiSunter (fun q => q - 1) false cmpW muTableW).2.map (·.2)).sum :=
  fs_score_is_sum_of_eps_floored_log_components (fun q => q - 1) false cmpW muTableW
    (by decide) (by decide)

theorem postInitReason_hash (r : DecisionResult) :
    (postInitReason r).deterministic_hash = r.deterministic_hash := by
  unfold postInitReason
  split <;> rfl

theorem postInitHash_of_empty (r : DecisionResult) (h : r.deterministic_hash = "") :
    postInitHash r = { r with deterministic_hash := computeDeterministicHash r } := by
  unfold postInitHash
  rw [if_pos h]

theorem postInit_hash_of_empty (r : DecisionResult) (h : r.deterministic_hash = "") :
    (DecisionResult.postInit r).deterministic_hash = computeDeterministicHash r := by
  unfold DecisionResult.postInit
  rw [postInitReason_hash, postInitHash_of_empty r h]

/-- C3.  A `DecisionResult` built by `__post_init__` (hash not supplied) gets
`deterministic_hash = sha256(canonical_json)[:12]`, where the canonical JSON
carries exactly `{decision, score_total, score_components, best_author_id,
mode, thresholds}` with floats rounded to six decimals and keys sorted
(`canonicalHashJson`); consequently two results agreeing on those six fields
get identical hashes, whatever their other fields. -/
theorem deterministic_hash_of_canonical_six_fields
    (r0 r1 : DecisionResult)
    (h0 : r0.deterministic_hash = "") (h1 : r1.deterministic_hash = "")
    (hd : r0.decision = r1.decision)
    (hs : r0.score_total = r1.score_total)
    (hc : r0.score_components = r1.score_components)
    (hb : r0.best_author_id = r1.best_author_id)
    (hm : r0.mode = r1.mode)
    (ht : r0.thresholds = r1.thresholds) :
    (DecisionResult.postInit r0).deterministic_hash =
      (sha256HexOfString (canonicalHashJson r0)).take 12 ∧
    (DecisionResult.postInit r0).deterministic_hash =
      (DecisionResult.postInit r1).deterministic_hash := by
  have hjson : canonicalHashJson r0 = canonicalHashJson r1 := by
    unfold canonicalHashJson
    rw [hd, hs, hc, hb, hm, ht]
  refine ⟨postInit_hash_of_empty r0 h0, ?_⟩
  rw [postInit_hash_of_empty r0 h0, postInit_hash_of_empty r1 h1]
  unfold computeDeterministicHash
  rw [hjson]

/-- Witness for C3: `preResultA` and `preResultB` share the six hashed fields
but differ in comparisons, top-k, run id, candidate count and blocking keys;
their post-init hashes agree and equal the canonical SHA-256 prefix. -/
theorem deterministic_hash_of_canonical_six_fields_witness :
    (DecisionResult.postInit preResultA).deterministic_hash =
      (sha256HexOfString (canonicalHashJson preResultA)).take 12 ∧
    (DecisionResult.postInit preResultA).deterministic_hash =
      (DecisionResult.postInit preResultB).deterministic_hash :=
  deterministic_hash_of_canonical_six_fields preResultA preResultB
    rfl rfl rfl rfl rfl rfl rfl rfl

/-- C10.  `append_trace` writes nothing at all when no `trace_path` is
configured — for every decision result, including an UNKNOWN with a configured
`review_path` — and a review-queue record is only ever written when both
`trace_path` and `review_path` are configured and the decision is UNKNOWN. -/
theorem no_trace_path_writes_nothing
    (cfg : TraceConfig) (ts tsReview reviewWallTs : String)
    (r : DecisionResult) (m : Mention) (metadata : List (String × String)) :
    (cfg.trace_path = none →
      appendTrace cfg ts tsReview reviewWallTs r m metadata = []) ∧
    (∀ line, (TraceStream.review, line) ∈ appendTrace cfg ts tsReview reviewWallTs r m metadata →
      cfg.trace_path ≠ none ∧ cfg.review_path ≠ none ∧ r.decision = .unknown) := by
  constructor
  · intro h
    unfold appendTrace
    rw [h]
  · intro line hline
    unfold appendTrace at hline
    cases htp : cfg.trace_path with
    | none => rw [htp] at hline; cases hline
    | some p =>
        rw [htp] at hline
        refine ⟨by simp, ?_⟩
        rcases List.mem_cons.mp hline with heq | hmem
        · cases heq
        · split at hmem
          · cases hrp : cfg.review_path with
            | none => rw [hrp] at hmem; cases hmem
            | some q =>
                rw [hrp] at hmem
                rename_i hdec
                exact ⟨by simp, hdec⟩
          · cases hmem

/-- Witness for C10: with `trace_path` unset but `review_path` set, an UNKNOWN
decision writes no record at all. -/
theorem no_trace_path_writes_nothing_witness :
    appendTrace { review_path := some "review.jsonl", salt := "S" }
      "t0" "t1" "t2"
      { decision := .unknown, score_total := 1/2, score_components := [],
        comparisons := [], thresholds := [("accept", 9/10), ("reject", 1/5)],
        mode := "fs" }
      { name := some "John Smith" } [] = [] :=
  (no_trace_path_writes_nothing _ "t0" "t1" "t2" _ _ []).1 rfl

theorem idMem_dedupInsert_self (acc : List Author) (a : Author) :
    ∃ b ∈ dedupInsert acc a, b.author_id = a.author_id := by
  unfold dedupInsert
  split
  · rename_i h
    rcases List.any_eq_true.mp h with ⟨b, hb, hba⟩
    exact ⟨b, hb, beq_iff_eq.mp hba⟩
  · exact ⟨a, List.mem_append_right _ (List.mem_singleton_self a), rfl⟩

theorem idMem_dedupInsert_mono {acc : List Author} {i : String} (c : Author)
    (h : ∃ b ∈ acc, b.author_id = i) :
    ∃ b ∈ dedupInsert acc c, b.author_id = i := by
  unfold dedupInsert
  split
  · exact h
  · rcases h with ⟨b, hb, hbi⟩
    exact ⟨b, List.mem_append_left _ hb, hbi⟩

theorem idMem_foldl_mono {acc : List Author} {i : String} (l : List Author)
    (h : ∃ b ∈ acc, b.author_id = i) :
    ∃ b ∈ l.foldl dedupInsert acc, b.author_id = i := by
  induction l generalizing acc with
  | nil => exact h
  | cons x t ih => exact ih (idMem_dedupInsert_mono x h)

theorem idMem_foldl_of_mem {acc : List Author} {a : Author} (l : List Author)
    (ha : a ∈ l) :
    ∃ b ∈ l.foldl dedupInsert acc, b.author_id = a.author_id := by
  induction l generalizing acc with
  | nil => cases ha
  | cons x t ih =>
      rcases List.mem_cons.mp ha with rfl | ha
      · exact idMem_foldl_mono t (idMem_dedupInsert_self acc a)
      · exact ih ha

theorem idMem_affFold_mono {acc : List Author} {i : String}
    (f : String → List Author) (affs : List String)
    (h : ∃ b ∈ acc, b.author_id = i) :
    ∃ b ∈ affs.foldl
        (fun acc aff => if aff ≠ "" then (f aff).foldl dedupInsert acc else acc)
        acc, b.author_id = i := by
  induction affs generalizing acc with
  | nil => exact h
  | cons x t ih =>
      simp only [List.foldl]
      split
      · exact ih (idMem_foldl_mono _ h)
      · exact ih h

theorem idMem_candidateUnion (db : AuthorDatabase) (mention : Mention)
    (x : String) (a : Author) (hx : mention.orcid = some x)
    (hmem : a ∈ idxGet db.blocking_key_index ("orcid:" ++ x)) :
    ∃ b ∈ candidateUnion db mention, b.author_id = a.author_id := by
  have h1 : ∃ b ∈ (idxGet db.blocking_key_index ("orcid:" ++ x)).foldl
      dedupInsert [], b.author_id = a.author_id := idMem_foldl_of_mem _ hmem
  unfold candidateUnion
  apply idMem_affFold_mono
  simp only [hx]
  cases mention.name with
  | none => exact h1
  | some nm =>
      simp only []
      split <;> split <;>
        first
        | exact h1
        | exact idMem_foldl_mono _ h1
        | exact idMem_foldl_mono _ (idMem_foldl_mono _ h1)

theorem mem_getCandidates_of_union (db : AuthorDatabase) (mention : Mention)
    {max_candidates : Nat} {a : Author} (ha : a ∈ candidateUnion db mention)
    (hlen : (candidateUnion db mention).length ≤ max_candidates) :
    a ∈ getCandidates db mention max_candidates := by
  simp only [getCandidates]
  split
  · rename_i h
    rw [length_sortById] at h
    omega
  · exact mem_sortById.mpr ha

/-- Counterexample for C5: with `max_candidates = 2`, the pre-truncation union
for the mention (surname block of three authors plus the ORCID key) has three
entries; sorting by `author_id` puts the ORCID owner (`au_0000000c`) last, and
the truncation drops exactly the owner — no candidate carries the mention's
ORCID. -/
theorem orcid_owner_truncated_counterexample :
    carlSmith ∈ dbTrunc.authors ∧
    carlSmith.orcid = some "0000-0001-5000-0007" ∧
    mentionTrunc.orcid = some "0000-0001-5000-0007" ∧
    2 < (candidateUnion dbTrunc mentionTrunc).length ∧
    carlSmith ∉ getCandidates dbTrunc mentionTrunc 2 ∧
    (∀ a ∈ getCandidates dbTrunc mentionTrunc 2,
      a.orcid ≠ some "0000-0001-5000-0007") := by decide

/-- C5 (amended).  If the mention carries ORCID `x` and an author is indexed
under the blocking key `orcid:x` (as `add_author` indexes every stored author
with an ORCID), then that author is in the returned candidate list — provided
the deduplicated pre-truncation union fits within `max_candidates`; when the
union exceeds `max_candidates`, truncation after the `author_id` sort can drop
the owner. -/
theorem orcid_owner_in_candidates_without_truncation
    (db : AuthorDatabase) (mention : Mention) (max_candidates : Nat)
    (x : String) (a : Author)
    (hx : mention.orcid = some x)
    (hmem : a ∈ idxGet db.blocking_key_index ("orcid:" ++ x))
    (huniq : ∀ b ∈ candidateUnion db mention, b.author_id = a.author_id → b = a)
    (hlen : (candidateUnion db mention).length ≤ max_candidates) :
    a ∈ getCandidates db mention max_candidates := by
  rcases idMem_candidateUnion db mention x a hx hmem with ⟨b, hb, hid⟩
  have hba : b = a := huniq b hb hid
  exact mem_getCandidates_of_union db mention (hba ▸ hb) hlen

/-- Witness for C5 (amended): with the default `max_candidates = 100` the
three-author union is not truncated and the ORCID owner is retrieved. -/
theorem orcid_owner_in_candidates_without_truncation_witness :
    carlSmith ∈ getCandidates dbTrunc mentionTrunc 100 :=
  orcid_owner_in_candidates_without_truncation dbTrunc mentionTrunc 100
    "0000-0001-5000-0007" carlSmith (by decide) (by decide) (by decide) (by decide)

/-- Counterexample for C7: deciding the mention `{name "Alice Wang"}` against
the empty repository yields blocking keys that do NOT include
`surname_initial:wang_a` — `_extract_blocking_keys` upper-cases the first
initial (`tokens[0][0].upper()`), emitting `surname_initial:wang_A` instead. -/
theorem alice_wang_blocking_key_counterexample :
    "surname_initial:wang_a" ∉ resultAlice.blocking_keys := by decide

/-- C7 (amended).  Deciding `{name "Alice Wang"}` against the empty repository
yields NEW with `score_total 0.0`, empty components, empty `top_k`,
`candidate_count 0`, and blocking keys including `surname:wang` and
`surname_initial:wang_A` (upper-cased initial). -/
theorem alice_wang_empty_repo_new_decision :
    resultAlice.decision = Decision.new ∧
    resultAlice.score_total = 0 ∧
    resultAlice.score_components = [] ∧
    resultAlice.topk = [] ∧
    resultAlice.candidate_count = 0 ∧
    "surname:wang" ∈ resultAlice.blocking_keys ∧
    "surname_initial:wang_A" ∈ resultAlice.blocking_keys := by decide

/-- C9.  In the trace line written for a decision on the mention named `张伟`
with salt `"S"`: the literal name appears nowhere in the line; the
`mention.name.hash` field is the first 16 hex characters of
`sha256("张伟||S")` (concretely `509daa16622eed3a`, which does appear in the
line); the detected script is `"cjk"`; and the token count is 1. -/
theorem zhangwei_trace_redaction :
    hashText "S" "张伟" = (sha256HexOfString ("张伟" ++ "||" ++ "S")).take 16 ∧
    hashText "S" "张伟" = "509daa16622eed3a" ∧
    detectScript "张伟" = "cjk" ∧
    (pySplit "张伟").length = 1 ∧
    strContains "张伟" traceLineZhangWei = false ∧
    strContains (hashText "S" "张伟") traceLineZhangWei = true := by
  refine ⟨rfl, by decide, by decide, by decide, by decide, by decide⟩

/-- C6 (code bug).  Removing a stored author crashes: `remove_author` reads
`author.name`, an attribute the `Author` dataclass does not define, raising
`AttributeError` before any index is touched.  Even under the evident repair
(reading `canonical_name`), the method still leaves the removed author indexed
in `surname_initial_index` and in `blocking_key_index`, violating the claimed
invariant. -/
theorem remove_author_leaves_indexes :
    removeAuthor dbOneAuthor "au_00000001" = .error .attributeError ∧
    (removeAuthorPatched dbOneAuthor "au_00000001").2 = true ∧
    (removeAuthorPatched dbOneAuthor "au_00000001").1.authors = [] ∧
    (∃ p ∈ (removeAuthorPatched dbOneAuthor "au_00000001").1.blocking_key_index,
      ∃ a ∈ p.2, a.author_id = "au_00000001") ∧
    (∃ p ∈ (removeAuthorPatched dbOneAuthor "au_00000001").1.surname_initial_index,
      ∃ a ∈ p.2, a.author_id = "au_00000001") :=
  ⟨rfl, by decide, by decide, by decide, by decide⟩

/-- Counterexample for C2: the repository owns the mention's ORCID
(`au_b1c2d3e4` holds it and is retrieved as a candidate), the score is below
the reject threshold — and the emitted decision is NEW with no best author,
not the claimed MERGE with the owner: the engine has no ORCID override. -/
theorem orcid_override_counterexample :
    mentionOwned.orcid = some "0000-0002-1825-0097" ∧
    bobSmith ∈ dbOwner.authors ∧
    bobSmith.orcid = some "0000-0002-1825-0097" ∧
    bobSmith ∈ getCandidates dbOwner mentionOwned 100 ∧
    resultOwned.score_total ≤ ({} : AuthorMerger).reject_threshold ∧
    resultOwned.decision = Decision.new ∧
    resultOwned.decision ≠ Decision.merge ∧
    resultOwned.best_author_id = none := by decide

/-- C2 (amended).  The engine applies no ORCID-ownership override: even when
the mention's ORCID is already owned by a stored author, the decision follows
the dual-threshold rule alone, so whenever every candidate scores at or below
`reject_threshold` the emitted decision is NEW with `best_author_id = None`
(no MERGE with the owner, and no override reason). -/
theorem no_orcid_override_below_reject
    (cfg : AuthorMerger) (sc : Mention → Author → CompVec × ℚ × List (String × ℚ))
    (db : AuthorDatabase) (mention : Mention) (x : String) (a : Author)
    (hx : mention.orcid = some x) (ha : a ∈ db.authors) (hao : a.orcid = some x)
    (hne : getCandidates db mention 100 ≠ [])
    (hsc : ∀ s ∈ candidateScores sc db mention, s ≤ cfg.reject_threshold)
    (hra : cfg.reject_threshold < cfg.accept_threshold) :
    (makeDecision cfg sc db mention).decision = Decision.new ∧
    (makeDecision cfg sc db mention).best_author_id = none := by
  obtain ⟨hmem, _, _, hnew, _, hbest⟩ :=
    makeDecision_threshold_spec cfg sc db mention hne
  have hle : (makeDecision cfg sc db mention).score_total ≤ cfg.reject_threshold :=
    hsc _ hmem
  have hnacc : ¬ cfg.accept_threshold ≤ (makeDecision cfg sc db mention).score_total :=
    not_le.mpr (lt_of_le_of_lt hle hra)
  have hdec := hnew hle hnacc
  exact ⟨hdec, hbest (by rw [hdec]; intro h; cases h)⟩

/-- Witness for C2 (amended): the concrete owned-ORCID scenario, where every
candidate scores `0.0 ≤ 0.2`, yields NEW with no best author. -/
theorem no_orcid_override_below_reject_witness :
    (makeDecision {} scEmptyTable dbOwner mentionOwned).decision = Decision.new ∧
    (makeDecision {} scEmptyTable dbOwner mentionOwned).best_author_id = none :=
  no_orcid_override_below_reject {} scEmptyTable dbOwner mentionOwned
    "0000-0002-1825-0097" bobSmith rfl (by decide) (by decide) (by decide)
    (by decide) (by decide)

end IAD
